import Mathlib

/-!
Verification development for the ColorGen palette engine.

The definitions below are a shallow embedding of the final versions of the
engine modules (src/engine/harmonies.ts, src/engine/roomAssigner.ts,
src/engine/wardrobeAssigner.ts together with the catalogs they consult).
JavaScript numbers are modelled as exact real numbers; a chroma-js color is
modelled as an exact coordinate record with one constructor per chroma-js
constructor used by the engine (chroma.lch and chroma.lab), and the lch/lab
accessors are the exact coordinate conversions.  The 8-bit sRGB
quantization that chroma-js applies when a color is rendered to hex is not
modelled; hex-string identity of colors is modelled as coordinate identity.
The external chroma-js deltaE metric is modelled as the Euclidean distance
in Lab coordinates; no theorem below depends on the exact formula of that
metric.
-/

namespace ColorGen

noncomputable section

/-- Color value: one point of the perceptual color space, remembering which
chroma-js constructor produced it (chroma.lch or chroma.lab).  Coordinates
are exact reals. -/
inductive Color where
  | lch (l c h : ℝ)
  | lab (l a b : ℝ)

instance : DecidableEq Color := Classical.decEq Color

/-- Accessor for the lightness coordinate: both the first entry of the
chroma-js lab() triple and the first entry of the lch() triple. -/
def Color.lightness : Color → ℝ
  | .lch l _ _ => l
  | .lab l _ _ => l

/-- Accessor for the chroma coordinate, the second entry of the chroma-js
lch() triple. -/
def Color.chr : Color → ℝ
  | .lch _ c _ => c
  | .lab _ a b => Real.sqrt (a ^ 2 + b ^ 2)

/-- Accessor for the hue coordinate in degrees, the third entry of the
chroma-js lch() triple.  chroma-js reports NaN hue for pure neutrals and
every call site guards it with a || 0 fallback; in this exact model the
guard corresponds to the value 0 that Complex.arg takes at the origin. -/
def Color.hue : Color → ℝ
  | .lch _ _ h => h
  | .lab _ a b =>
      let d := Complex.arg ⟨a, b⟩ * (180 / Real.pi)
      if d < 0 then d + 360 else d

/-- Accessor for the second entry of the chroma-js lab() triple. -/
def Color.labA : Color → ℝ
  | .lch _ c h => c * Real.cos (h * Real.pi / 180)
  | .lab _ a _ => a

/-- Accessor for the third entry of the chroma-js lab() triple. -/
def Color.labB : Color → ℝ
  | .lch _ c h => c * Real.sin (h * Real.pi / 180)
  | .lab _ _ b => b

/-- Model of the external chroma-js deltaE metric, taken as the Euclidean
distance in Lab coordinates.  The theorems in this file do not depend on
the exact formula, only on deltaE being a pure function of its inputs. -/
def deltaE (x y : Color) : ℝ :=
  Real.sqrt ((x.lightness - y.lightness) ^ 2 +
    (x.labA - y.labA) ^ 2 + (x.labB - y.labB) ^ 2)

/-- Truncation toward zero, as JavaScript applies inside the remainder
operator. -/
def realTrunc (q : ℝ) : ℤ := if 0 ≤ q then ⌊q⌋ else ⌈q⌉

/-- JavaScript remainder operator a % b (sign of the dividend). -/
def jsMod (a b : ℝ) : ℝ := a - b * (realTrunc (a / b) : ℝ)

/-! Seeded pseudo-random generator mulberry32 from src/engine/harmonies.ts.
The 32-bit machine state is modelled as the natural number below 2 ^ 32
holding the bit pattern of the JavaScript int32 state; signed int32
addition and Math.imul are multiplication and addition modulo 2 ^ 32 on
bit patterns, and the JavaScript bitwise xor, or and unsigned shift act on
the patterns directly. -/

/-- Bit pattern of the JavaScript ToInt32 conversion of an integer. -/
def toUint32 (n : ℤ) : ℕ := (n % 4294967296).toNat

/-- One call of the closure returned by mulberry32: returns the updated
32-bit state together with the produced sample in [0, 1). -/
def mulberry32Step (s : ℕ) : ℕ × ℚ :=
  let s1 := (s + 0x6d2b79f5) % 4294967296
  let t1 := ((s1 ^^^ (s1 >>> 15)) * (1 ||| s1)) % 4294967296
  let t2 := ((t1 + ((t1 ^^^ (t1 >>> 7)) * (61 ||| t1)) % 4294967296) % 4294967296) ^^^ t1
  let out := t2 ^^^ (t2 >>> 14)
  (s1, (out : ℚ) / 4294967296)

/-- Harmony modes of src/engine/harmonies.ts. -/
inductive HarmonyMode where
  | complementary
  | analogous
  | triadic
  | splitComplementary
  | deltaESmart
deriving DecidableEq

/-- Function rotateHue of src/engine/harmonies.ts: reads the lch triple,
adds the rotation to the hue modulo 360 and rebuilds the color with
chroma.lch. -/
def rotateHue (color : Color) (degrees : ℝ) : Color :=
  Color.lch color.lightness color.chr (jsMod (color.hue + degrees + 360) 360)

/-- Function varyLCH of src/engine/harmonies.ts: jitters all three lch
coordinates, clamping lightness to [15, 97] and chroma to [0, 55]. -/
def varyLCH (color : Color) (dL dC dH : ℝ) : Color :=
  Color.lch (max 15 (min 97 (color.lightness + dL)))
    (max 0 (min 55 (color.chr + dC)))
    (jsMod (color.hue + dH + 360) 360)

/-- Fallback color for list indexing; the engine only indexes nonempty
lists, so the fallback is never reached. -/
def defaultColor : Color := Color.lch 0 0 0

/-- Loop body of genComplementary, genAnalogous, genTriadic and
genSplitComplementary: every iteration draws lightness, chroma and hue
jitter in that order from the generator and applies varyLCH.  The bases
argument is the list indexed with i mod length; the offsets argument,
when present, is the per-iteration hue rotation applied before the
jitter (genComplementary and genAnalogous apply no rotation), and
hueSpread is the factor applied to the third draw. -/
def genRotationLoop (allBases : List Color) (offsets : Option (List ℝ))
    (hueSpread : ℝ) : ℕ → ℕ → ℕ → List Color
  | _, _, 0 => []
  | st, i, n + 1 =>
      let base := allBases.getD (i % allBases.length) defaultColor
      let rotated := match offsets with
        | none => base
        | some offs => rotateHue base (offs.getD (i % offs.length) 0)
      let (st1, r1) := mulberry32Step st
      let (st2, r2) := mulberry32Step st1
      let (st3, r3) := mulberry32Step st2
      varyLCH rotated
          (((r1 : ℝ) - 0.5) * 60) (((r2 : ℝ) - 0.7) * 40)
          (((r3 : ℝ) - 0.5) * hueSpread)
        :: genRotationLoop allBases offsets hueSpread st3 (i + 1) n

/-- Function genComplementary of src/engine/harmonies.ts (final version):
bases are the 180-degree rotations of the locked colors followed by the
locked colors themselves, with moderate hue jitter. -/
def genComplementary (bases : List Color) (count : ℕ) (st : ℕ) : List Color :=
  genRotationLoop ((bases.map (fun c => rotateHue c 180)) ++ bases) none 30 st 0 count

/-- Function genAnalogous of src/engine/harmonies.ts (final version):
keeps the base hues, spreading hue by up to 35 degrees either way. -/
def genAnalogous (bases : List Color) (count : ℕ) (st : ℕ) : List Color :=
  genRotationLoop bases none 70 st 0 count

/-- Function genTriadic of src/engine/harmonies.ts (final version):
alternates rotations of 0, 120 and 240 degrees. -/
def genTriadic (bases : List Color) (count : ℕ) (st : ℕ) : List Color :=
  genRotationLoop bases (some [0, 120, 240]) 30 st 0 count

/-- Function genSplitComplementary of src/engine/harmonies.ts (final
version): alternates rotations of 0, 150 and 210 degrees. -/
def genSplitComplementary (bases : List Color) (count : ℕ) (st : ℕ) : List Color :=
  genRotationLoop bases (some [0, 150, 210]) 30 st 0 count

/-- Lightness grid of genDeltaESmart: L from 15 to 90 step 8. -/
def gridL : List ℝ := (List.range 10).map (fun i => 15 + 8 * (i : ℝ))

/-- The a and b grid of genDeltaESmart: from -60 to 60 step 12. -/
def gridAB : List ℝ := (List.range 11).map (fun i => -60 + 12 * (i : ℝ))

/-- Candidate grid of genDeltaESmart in loop order: L outermost, then a,
then b, each candidate built with chroma.lab (which accepts every grid
point, so the try block never skips). -/
def deGrid : List Color :=
  gridL.flatMap (fun l => gridAB.flatMap (fun a => gridAB.map (fun b => Color.lab l a b)))

/-- Scoring pass of genDeltaESmart: every candidate is scored by the sum
over the bases of the squared deviation of its deltaE distance from the
target distance, plus one fresh noise draw scaled by 10. -/
def deScorePass (bases : List Color) (target : ℝ) :
    List Color → ℕ → List (Color × ℝ) × ℕ
  | [], st => ([], st)
  | c :: rest, st =>
      let s0 := bases.foldl (fun acc bc => acc + (deltaE c bc - target) ^ 2) 0
      let (st1, r) := mulberry32Step st
      let (tail, st2) := deScorePass bases target rest st1
      ((c, s0 + (r : ℝ) * 10) :: tail, st2)

/-- Selection pass of genDeltaESmart: walk the score-sorted candidates,
stop once count colors are picked, and accept a candidate only when it is
at least minDist away from every previously accepted one. -/
def dePick (count : ℕ) (minDist : ℝ) : List (Color × ℝ) → List Color → List Color
  | [], picked => picked
  | c :: rest, picked =>
      if count ≤ picked.length then picked
      else if ∀ p ∈ picked, minDist ≤ deltaE c.1 p then
        dePick count minDist rest (picked ++ [c.1])
      else
        dePick count minDist rest picked

/-- Function genDeltaESmart of src/engine/harmonies.ts (final version). -/
def genDeltaESmart (bases : List Color) (count : ℕ) (st : ℕ) : List Color :=
  let (st1, r0) := mulberry32Step st
  let target : ℝ := 25 + (r0 : ℝ) * 25
  let (cands, st2) := deScorePass bases target deGrid st1
  let sorted := cands.mergeSort (fun x y => decide (x.2 ≤ y.2))
  let (_, r1) := mulberry32Step st2
  let minDist : ℝ := 10 + (r1 : ℝ) * 10
  dePick count minDist sorted []

/-- Function generateFromBase of src/engine/harmonies.ts (final version):
dispatch on the harmony mode. -/
def generateFromBase (bases : List Color) (mode : HarmonyMode) (count : ℕ)
    (st : ℕ) : List Color :=
  match mode with
  | .complementary => genComplementary bases count st
  | .analogous => genAnalogous bases count st
  | .triadic => genTriadic bases count st
  | .splitComplementary => genSplitComplementary bases count st
  | .deltaESmart => genDeltaESmart bases count st

/-- Function generateHarmony of src/engine/harmonies.ts (final version).
All randomness is drawn from mulberry32 seeded with
batchSeed + variation * 7919; when no locked colors are supplied a random
base color is synthesized first (hue, then lightness, then chroma). -/
def generateHarmony (lockedColors : List Color) (mode : HarmonyMode)
    (count : ℤ) (variation : ℤ) (batchSeed : ℤ) : List Color :=
  if count ≤ 0 then []
  else
    let st0 := toUint32 (batchSeed + variation * 7919)
    if lockedColors.isEmpty then
      let (st1, r1) := mulberry32Step st0
      let baseHue : ℝ := (r1 : ℝ) * 360
      let (st2, r2) := mulberry32Step st1
      let baseL : ℝ := 40 + (r2 : ℝ) * 30
      let (st3, r3) := mulberry32Step st2
      let baseC : ℝ := 15 + (r3 : ℝ) * 40
      generateFromBase [Color.lch baseL baseC baseHue] mode count.toNat st3
    else
      generateFromBase lockedColors mode count.toNat st0

/-! Room assigner, final version, from src/engine/roomAssigner.ts: cohesion
scoring, per-item delta, item fitness and the auto-fill pass, together with
the item catalog of src/engine/itemCatalog.ts and the room item record of
the final src/engine/roomTemplates.ts (numeric 1-10 visual weight). -/

/-- Fill algorithms of src/engine/roomAssigner.ts. -/
inductive FillAlgorithm where
  | surfaceArea
  | tonalGradient
  | anchorPiece
  | minimalPalette
deriving DecidableEq

/-- Record CohesionWeights of src/engine/roomAssigner.ts. -/
structure CohesionWeights where
  hueCohesion : ℝ
  saturationCoherence : ℝ
  lightnessReasonableness : ℝ

/-- Table ALGORITHM_WEIGHTS of src/engine/roomAssigner.ts. -/
def algorithmWeights : FillAlgorithm → CohesionWeights
  | .surfaceArea => ⟨0.45, 0.25, 0.30⟩
  | .tonalGradient => ⟨0.55, 0.20, 0.25⟩
  | .anchorPiece => ⟨0.40, 0.30, 0.30⟩
  | .minimalPalette => ⟨0.50, 0.30, 0.20⟩

/-- Tendency tags of src/engine/roomTemplates.ts. -/
inductive Tendency where
  | any
  | lighter
  | darker
  | warmer
  | cooler
  | neutral
  | bold
deriving DecidableEq

/-- Item roles of src/engine/itemCatalog.ts. -/
inductive ItemRole where
  | background
  | ground
  | anchor
  | accent
  | neutral
deriving DecidableEq

/-- Item categories of src/engine/itemCatalog.ts. -/
inductive ItemCategory where
  | surfaces
  | furniture
  | textiles
  | fixtures
  | accents
deriving DecidableEq

/-- Record CatalogItem of src/engine/itemCatalog.ts. -/
structure CatalogItem where
  name : String
  weight : ℚ
  category : ItemCategory
  lightnessRange : ℚ × ℚ
  role : ItemRole

/-- Record RoomItem of the final src/engine/roomTemplates.ts: numeric
visual weight on the continuous 1-10 scale. -/
structure RoomItem where
  id : ℕ
  name : String
  color : Option Color
  weight : ℚ
  tendency : Tendency

/-- Table ITEM_CATALOG of src/engine/itemCatalog.ts. -/
def ITEM_CATALOG : List CatalogItem := [
  ⟨"Floors", 10, .surfaces, (20, 65), .ground⟩,
  ⟨"Main Wall", 10, .surfaces, (75, 97), .background⟩,
  ⟨"Accent Wall", 7, .surfaces, (25, 75), .accent⟩,
  ⟨"Ceiling", 8, .surfaces, (85, 98), .background⟩,
  ⟨"Backsplash", 3, .surfaces, (40, 85), .accent⟩,
  ⟨"Countertop", 4, .surfaces, (30, 85), .anchor⟩,
  ⟨"Fireplace Surround", 4, .surfaces, (30, 80), .anchor⟩,
  ⟨"Couch", 7, .furniture, (30, 80), .anchor⟩,
  ⟨"Sectional", 8, .furniture, (30, 80), .anchor⟩,
  ⟨"Armchair", 4, .furniture, (25, 75), .anchor⟩,
  ⟨"Ottoman", 3, .furniture, (30, 75), .anchor⟩,
  ⟨"Coffee Table", 3, .furniture, (20, 65), .anchor⟩,
  ⟨"Dining Table", 6, .furniture, (25, 70), .anchor⟩,
  ⟨"Dining Chairs", 4, .furniture, (25, 70), .anchor⟩,
  ⟨"Desk", 4, .furniture, (25, 65), .anchor⟩,
  ⟨"Desk Chair", 3, .furniture, (25, 70), .anchor⟩,
  ⟨"Bed Frame", 6, .furniture, (20, 60), .anchor⟩,
  ⟨"Headboard", 4, .furniture, (25, 70), .anchor⟩,
  ⟨"Nightstand", 2, .furniture, (25, 65), .anchor⟩,
  ⟨"Dresser", 4, .furniture, (25, 65), .anchor⟩,
  ⟨"Built-in Bookshelf", 5, .furniture, (25, 70), .anchor⟩,
  ⟨"TV Console", 3, .furniture, (20, 55), .anchor⟩,
  ⟨"Bar Cart", 2, .furniture, (30, 70), .accent⟩,
  ⟨"Side Table", 2, .furniture, (25, 65), .anchor⟩,
  ⟨"Rug", 6, .textiles, (30, 80), .anchor⟩,
  ⟨"Runner Rug", 3, .textiles, (30, 75), .anchor⟩,
  ⟨"Drapes", 5, .textiles, (55, 90), .background⟩,
  ⟨"Sheers", 3, .textiles, (80, 97), .background⟩,
  ⟨"Duvet Cover", 7, .textiles, (60, 90), .anchor⟩,
  ⟨"Sheets", 5, .textiles, (80, 97), .background⟩,
  ⟨"Fitted Sheet", 4, .textiles, (80, 97), .background⟩,
  ⟨"Pillowcases", 2, .textiles, (40, 90), .accent⟩,
  ⟨"Throw Pillows", 2, .textiles, (30, 80), .accent⟩,
  ⟨"Throw Blanket", 2, .textiles, (40, 80), .accent⟩,
  ⟨"Table Runner", 1, .textiles, (40, 80), .accent⟩,
  ⟨"Upholstery", 4, .textiles, (20, 65), .anchor⟩,
  ⟨"Doors", 3, .fixtures, (75, 97), .neutral⟩,
  ⟨"Cabinet Doors", 4, .fixtures, (30, 70), .anchor⟩,
  ⟨"Window Frames", 2, .fixtures, (75, 97), .neutral⟩,
  ⟨"Railing", 2, .fixtures, (20, 55), .anchor⟩,
  ⟨"Stair Treads", 3, .fixtures, (25, 55), .ground⟩,
  ⟨"Baseboards", 1, .fixtures, (80, 97), .neutral⟩,
  ⟨"Crown Molding", 1, .fixtures, (85, 97), .neutral⟩,
  ⟨"Light Fixture", 2, .fixtures, (30, 85), .accent⟩,
  ⟨"Pendant Light", 2, .fixtures, (30, 85), .accent⟩,
  ⟨"Sconce", 1, .fixtures, (40, 80), .accent⟩,
  ⟨"Shelving", 3, .fixtures, (30, 70), .anchor⟩,
  ⟨"Artwork", 3, .accents, (20, 80), .accent⟩,
  ⟨"Mirror Frame", 2, .accents, (25, 70), .accent⟩,
  ⟨"Vase", 1, .accents, (20, 80), .accent⟩,
  ⟨"Candles", 1, .accents, (60, 95), .accent⟩,
  ⟨"Books (spines)", 1, .accents, (20, 70), .accent⟩,
  ⟨"Plant Pot", 1, .accents, (25, 75), .accent⟩,
  ⟨"Tray", 1, .accents, (30, 70), .accent⟩]

/-- Function getCatalogItem of src/engine/itemCatalog.ts: case-insensitive
lookup by name after trimming the query. -/
def getCatalogItem (name : String) : Option CatalogItem :=
  let lower := name.toLower.trim
  ITEM_CATALOG.find? (fun item => item.name.toLower == lower)

/-- Function getCatalogWeight of src/engine/itemCatalog.ts. -/
def getCatalogWeight (name : String) : ℚ :=
  ((getCatalogItem name).map CatalogItem.weight).getD 3

/-- Function getCatalogLightnessRange of src/engine/itemCatalog.ts. -/
def getCatalogLightnessRange (name : String) : ℚ × ℚ :=
  ((getCatalogItem name).map CatalogItem.lightnessRange).getD (20, 90)

/-- Function getCatalogRole of src/engine/itemCatalog.ts. -/
def getCatalogRole (name : String) : ItemRole :=
  ((getCatalogItem name).map CatalogItem.role).getD .anchor

/-- Function expandByWeights of src/engine/roomAssigner.ts (final version):
repeat every color max(1, round(weight)) times; a missing or
length-mismatched weight list leaves the colors unchanged. -/
def expandByWeights (colors : List Color) (weights : Option (List ℚ)) : List Color :=
  match weights with
  | none => colors
  | some ws =>
      if ws.length ≠ colors.length then colors
      else (colors.zip ws).flatMap (fun p => List.replicate (max 1 (round p.2)).toNat p.1)

/-- Circular hue distance used throughout src/engine/roomAssigner.ts. -/
def hueDist (h center : ℝ) : ℝ := min |h - center| (360 - |h - center|)

/-- Arithmetic mean, as the reduce-then-divide idiom of the source. -/
def listMean (xs : List ℝ) : ℝ := xs.sum / xs.length

/-- One step of the greedy hue clustering of src/engine/roomAssigner.ts: a
hue joins the first cluster whose running mean is within the threshold,
else it opens a new cluster at the end. -/
def clusterInsert (threshold h : ℝ) : List (List ℝ) → List (List ℝ)
  | [] => [[h]]
  | cl :: rest =>
      if hueDist h (listMean cl) < threshold then (cl ++ [h]) :: rest
      else cl :: clusterInsert threshold h rest

/-- Greedy hue clustering over a hue list. -/
def buildClusters (threshold : ℝ) (hues : List ℝ) : List (List ℝ) :=
  hues.foldl (fun cs h => clusterInsert threshold h cs) []

/-- Function getPaletteHueClusters of src/engine/roomAssigner.ts: cluster
the hues of the chromatic palette colors with threshold 45. -/
def getPaletteHueClusters (palette : List Color) : List (List ℝ) :=
  let chromatic := palette.filter (fun c => decide (8 < c.chr))
  if chromatic.isEmpty then []
  else buildClusters 45 (chromatic.map Color.hue)

/-- Distance from a hue to the nearest palette cluster center.  The source
folds Math.min starting from Infinity; since hueDist never exceeds 180 the
starting value 361 yields the same fold. -/
def bestClusterDist (h : ℝ) (clusters : List (List ℝ)) : ℝ :=
  (clusters.map (fun cl => hueDist h (listMean cl))).foldl min 361

/-- Function hueCohesionScore of src/engine/roomAssigner.ts (final
version): with palette context each chromatic hue is scored continuously
by its distance to the nearest palette cluster; without context the
absolute cluster count is scored. -/
def hueCohesionScore (colors : List Color) (paletteClusters : List (List ℝ)) : ℝ :=
  let chromatic := colors.filter (fun c => decide (8 < c.chr))
  if chromatic.length ≤ 1 then 100
  else
    let hues := chromatic.map Color.hue
    if paletteClusters.isEmpty then
      let n := (buildClusters 40 hues).length
      if n ≤ 2 then 100
      else if n = 3 then 75
      else if n = 4 then 50
      else max 0 (40 - ((n : ℝ) - 4) * 15)
    else
      let totalFit := hues.foldl
        (fun acc h => acc + max 0 (100 - bestClusterDist h paletteClusters * 2)) 0
      totalFit / hues.length

/-- Function saturationCoherenceScore of src/engine/roomAssigner.ts (final
version): smooth decay in the standard deviation of chroma. -/
def saturationCoherenceScore (colors : List Color) : ℝ :=
  let chromas := colors.map Color.chr
  let mean := listMean chromas
  let variance := (chromas.foldl (fun s c => s + (c - mean) ^ 2) 0) / chromas.length
  let stdDev := Real.sqrt variance
  if stdDev ≤ 5 then 100
  else max 0 (min 100 (105 - stdDev * 1.8))

/-- Function lightnessReasonablenessScore of src/engine/roomAssigner.ts
(final version): start from 100, subtract a flatness penalty when the
total sorted range is below 15, subtract 1.2 times the excess of every
adjacent gap above 20, subtract 0.4 times the standard deviation of the
gaps when there are at least two gaps, and clamp to [0, 100]. -/
def lightnessReasonablenessScore (colors : List Color) : ℝ :=
  let ls := colors.map Color.lightness
  let sorted := ls.mergeSort (fun a b => decide (a ≤ b))
  let range := sorted.getD (sorted.length - 1) 0 - sorted.getD 0 0
  let score1 := 100 - (if range < 15 then (15 - range) * 3 else 0)
  let gaps := (sorted.zip sorted.tail).map (fun p => p.2 - p.1)
  let score2 := gaps.foldl (fun s g => s - (if 20 < g then (g - 20) * 1.2 else 0)) score1
  let score3 :=
    if 1 < gaps.length then
      let meanGap := listMean gaps
      let gapVariance := (gaps.foldl (fun s g => s + (g - meanGap) ^ 2) 0) / gaps.length
      score2 - Real.sqrt gapVariance * 0.4
    else score2
  max 0 (min 100 score3)

/-- Function computeHarmonyScore of src/engine/roomAssigner.ts (final
version): fewer than two colors score 100; otherwise the weight-expanded
colors are scored on the three axes and combined by the algorithm preset,
rounded and clamped to [0, 100]. -/
def computeHarmonyScore (colors : List Color) (algorithm : FillAlgorithm)
    (palette : List Color) (weights : Option (List ℚ)) : ℤ :=
  if colors.length < 2 then 100
  else
    let expanded := expandByWeights colors weights
    let paletteClusters := getPaletteHueClusters palette
    let w := algorithmWeights algorithm
    let hue := hueCohesionScore expanded paletteClusters
    let sat := saturationCoherenceScore expanded
    let light := lightnessReasonablenessScore expanded
    max 0 (min 100 (round (hue * w.hueCohesion + sat * w.saturationCoherence +
      light * w.lightnessReasonableness)))

/-- Function itemScoreDelta of src/engine/roomAssigner.ts (final version).
Hex-string identity of colors is modelled as coordinate identity: the
colors matching the given one are filtered out, and the weight at the
first matching position is dropped (dropping nothing when there is no
match, as the source filter against index -1 does). -/
def itemScoreDelta (color : Color) (allColors : List Color)
    (algorithm : FillAlgorithm) (palette : List Color)
    (allWeights : Option (List ℚ)) : ℤ :=
  let idx := allColors.findIdx (fun c => decide (c = color))
  let without := allColors.filter (fun c => decide (¬c = color))
  let weightsWithout := allWeights.map (fun ws => ws.eraseIdx idx)
  if without.length < 2 then 0
  else
    computeHarmonyScore allColors algorithm palette allWeights -
      computeHarmonyScore without algorithm palette weightsWithout

/-- Function tendencyBonus of src/engine/roomAssigner.ts (final version). -/
def tendencyBonus (candidate : Color) (tendency : Tendency) : ℝ :=
  match tendency with
  | .any => 0
  | .lighter =>
      let lBonus : ℝ :=
        if 80 < candidate.lightness then 8
        else if 65 < candidate.lightness then 3
        else if 50 < candidate.lightness then 0
        else -5
      let cPenalty : ℝ :=
        if 35 < candidate.chr then -4
        else if 20 < candidate.chr then -1
        else 0
      lBonus + cPenalty
  | .darker =>
      if candidate.lightness < 40 then 4
      else if candidate.lightness < 55 then 1
      else -3
  | .warmer => if candidate.hue ≤ 90 ∨ 300 ≤ candidate.hue then 4 else -1
  | .cooler => if 150 ≤ candidate.hue ∧ candidate.hue ≤ 270 then 4 else -1
  | .neutral =>
      let cBonus : ℝ :=
        if candidate.chr < 8 then 6
        else if candidate.chr < 15 then 3
        else -3
      let lBonus2 : ℝ := if 50 < candidate.lightness then 1 else -1
      cBonus + lBonus2
  | .bold =>
      if 30 < candidate.chr then 4
      else if 15 < candidate.chr then 1
      else -2

/-- Diversity bonus term of function itemFitScore of
src/engine/roomAssigner.ts (final version): 25 points for an unused
palette color, 8 for a color used once, a clamped penalty for heavier
reuse, and 10 further points off any already-used color when the palette
is larger than the number of unassigned items still to fill. -/
def diversityBonus (uses paletteSize totalUnassigned : ℕ) : ℚ :=
  let base : ℚ :=
    if uses = 0 then 25
    else if uses = 1 then 8
    else max (-10) (5 - (uses : ℚ) * 5)
  if totalUnassigned < paletteSize ∧ 0 < uses then base - 10 else base

/-- Function itemFitScore of src/engine/roomAssigner.ts (final version):
lightness fit against the catalog range, role fit, diversity bonus,
scaled-down harmony contribution and the tendency tiebreak. -/
def itemFitScore (candidate : Color) (_itemName : String)
    (itemRole : ItemRole) (lightnessRange : ℚ × ℚ)
    (roomColors : List Color) (roomWeights : List ℚ) (itemWeight : ℚ)
    (algorithm : FillAlgorithm) (palette : List Color)
    (usage : Color → ℕ) (totalUnassigned : ℕ) (tendency : Tendency) : ℝ :=
  let L := candidate.lightness
  let C := candidate.chr
  let minL : ℝ := (lightnessRange.1 : ℝ)
  let maxL : ℝ := (lightnessRange.2 : ℝ)
  let midL := (minL + maxL) / 2
  let lightnessFit : ℝ :=
    if minL ≤ L ∧ L ≤ maxL then
      let dist := |L - midL|
      let halfRange := (maxL - minL) / 2
      30 - dist / halfRange * 10
    else
      let dist := (if L < minL then minL - L else L - maxL);
      (-dist) * 0.8
  let roleFit : ℝ :=
    match itemRole with
    | .background =>
        (if C < 10 then 10 else if C < 20 then 5 else -5) + (if 75 < L then 5 else 0)
    | .ground => (if L < 65 then 8 else -5) + (if 5 < C ∧ C < 35 then 7 else 0)
    | .accent => if 20 < C then 12 else if 10 < C then 6 else 0
    | .anchor => (if 25 < L ∧ L < 80 then 5 else 0) + (if 5 < C then 3 else 0)
    | .neutral => if C < 12 then 10 else if C < 20 then 3 else -8
  let dBonus := diversityBonus (usage candidate) palette.length totalUnassigned
  let testColors := roomColors ++ [candidate]
  let testWeights := roomWeights ++ [itemWeight]
  let harmony := computeHarmonyScore testColors algorithm palette (some testWeights)
  lightnessFit + roleFit + (dBonus : ℝ) + (harmony : ℝ) * 0.3 +
    tendencyBonus candidate tendency

/-- Argmax loop of autoFillRoom over the palette: strict improvement, so
the earliest candidate wins ties; the None accumulator models the
-Infinity starting best score, so the first candidate is always taken. -/
def pickBest (palette : List Color) (f : Color → ℝ) : Option Color :=
  (palette.foldl (fun acc candidate =>
      match acc with
      | none => some (candidate, f candidate)
      | some (b, bs) => if bs < f candidate then some (candidate, f candidate)
        else some (b, bs))
    none).map Prod.fst

/-- Usage counter of autoFillRoom after the initialization pass: palette
colors start at zero and each fixed color increments its entry when it is
a palette key.  Colors outside the palette read zero, as the source get
with a zero fallback does. -/
def initialUsage (palette fixedColors : List Color) : Color → ℕ :=
  fun c => if c ∈ palette then fixedColors.count c else 0

/-- Usage counter increment after a color is committed. -/
def bumpUsage (u : Color → ℕ) (c : Color) : Color → ℕ :=
  fun x => if x = c then u x + 1 else u x

/-- Walking state of the auto-fill loop of src/engine/roomAssigner.ts. -/
structure FillState where
  result : List RoomItem
  roomColors : List Color
  roomWeights : List ℚ
  usage : Color → ℕ
  remaining : ℕ

/-- Processing order of autoFillRoom (final version): indexed unassigned
items, stably sorted by descending visual weight. -/
def processingOrder (items : List RoomItem) : List (ℕ × RoomItem) :=
  ((items.enum).filter (fun p => p.2.color.isNone)).mergeSort
    (fun a b => decide (b.2.weight ≤ a.2.weight))

/-- Starting state of the auto-fill loop: fixed colors and weights are
collected from the already-assigned items. -/
def fillInit (items : List RoomItem) (palette : List Color) : FillState :=
  let fixedColors := items.filterMap RoomItem.color
  let fixedWeights := (items.filter (fun it => it.color.isSome)).map RoomItem.weight
  { result := items
    roomColors := fixedColors
    roomWeights := fixedWeights
    usage := initialUsage palette fixedColors
    remaining := (items.filter (fun it => it.color.isNone)).length }

/-- Candidate fitness of one loop iteration of autoFillRoom: the item is
read from the working list (falling back to the processed pair itself,
which is the same item), its catalog range and role are looked up, and
itemFitScore is evaluated against the running state. -/
def fitFor (palette : List Color) (algorithm : FillAlgorithm)
    (st : FillState) (p : ℕ × RoomItem) : Color → ℝ :=
  fun candidate =>
    let item := st.result.getD p.1 p.2
    itemFitScore candidate item.name (getCatalogRole item.name)
      (getCatalogLightnessRange item.name) st.roomColors st.roomWeights
      item.weight algorithm palette st.usage st.remaining item.tendency

/-- One iteration of the auto-fill loop of src/engine/roomAssigner.ts
(final version): take the argmax of itemFitScore over the palette, commit
the winner to the item, extend the running room colors and weights, bump
the usage counter and decrement the remaining count. -/
def fillStep (palette : List Color) (algorithm : FillAlgorithm)
    (st : FillState) (p : ℕ × RoomItem) : FillState :=
  let item := st.result.getD p.1 p.2
  match pickBest palette (fitFor palette algorithm st p) with
  | some c =>
      { result := st.result.set p.1 { item with color := some c }
        roomColors := st.roomColors ++ [c]
        roomWeights := st.roomWeights ++ [item.weight]
        usage := bumpUsage st.usage c
        remaining := st.remaining - 1 }
  | none => { st with remaining := st.remaining - 1 }

/-- State of the auto-fill loop after the first k processed items. -/
def fillStateAt (items : List RoomItem) (palette : List Color)
    (algorithm : FillAlgorithm) (k : ℕ) : FillState :=
  ((processingOrder items).take k).foldl (fillStep palette algorithm)
    (fillInit items palette)

/-- Function autoFillRoom of src/engine/roomAssigner.ts (final version). -/
def autoFillRoom (items : List RoomItem) (palette : List Color)
    (algorithm : FillAlgorithm) : List RoomItem :=
  if palette.isEmpty then items
  else
    ((processingOrder items).foldl (fillStep palette algorithm)
      (fillInit items palette)).result

/-! Wardrobe assigner from src/engine/wardrobeAssigner.ts together with
the catalog of src/engine/wardrobeCatalog.ts. -/

/-- Wardrobe roles of src/engine/wardrobeCatalog.ts. -/
inductive WardrobeRole where
  | foundation
  | core
  | accent
deriving DecidableEq

/-- Wardrobe categories of src/engine/wardrobeCatalog.ts. -/
inductive WardrobeCategory where
  | bottoms
  | tops
  | outerwear
  | dresses
  | shoes
  | accessories
deriving DecidableEq

/-- Record WardrobeItemType of src/engine/wardrobeCatalog.ts. -/
structure WardrobeItemType where
  name : String
  weight : ℚ
  category : WardrobeCategory
  lightnessRange : ℚ × ℚ
  role : WardrobeRole

/-- Table WARDROBE_CATALOG of src/engine/wardrobeCatalog.ts. -/
def WARDROBE_CATALOG : List WardrobeItemType := [
  ⟨"Trousers", 8, .bottoms, (15, 55), .foundation⟩,
  ⟨"Wide Trousers", 8, .bottoms, (15, 55), .foundation⟩,
  ⟨"Jeans", 8, .bottoms, (20, 50), .foundation⟩,
  ⟨"Chinos", 8, .bottoms, (30, 70), .foundation⟩,
  ⟨"Shorts", 6, .bottoms, (25, 70), .foundation⟩,
  ⟨"Joggers", 7, .bottoms, (15, 50), .foundation⟩,
  ⟨"Drawstring Pants", 7, .bottoms, (15, 55), .foundation⟩,
  ⟨"Skirt", 6, .bottoms, (15, 75), .core⟩,
  ⟨"T-Shirt", 6, .tops, (15, 92), .core⟩,
  ⟨"Oversized Tee", 7, .tops, (15, 92), .core⟩,
  ⟨"Button-Down Shirt", 6, .tops, (60, 95), .core⟩,
  ⟨"Band Collar Shirt", 6, .tops, (50, 95), .core⟩,
  ⟨"Knit Top", 6, .tops, (15, 80), .core⟩,
  ⟨"Blouse", 6, .tops, (40, 90), .core⟩,
  ⟨"Sweater", 7, .tops, (15, 80), .core⟩,
  ⟨"Turtleneck", 7, .tops, (10, 75), .core⟩,
  ⟨"Hoodie", 7, .tops, (15, 65), .core⟩,
  ⟨"Henley", 6, .tops, (20, 85), .core⟩,
  ⟨"Polo", 6, .tops, (25, 85), .core⟩,
  ⟨"Tank Top", 4, .tops, (15, 92), .core⟩,
  ⟨"Blazer", 8, .outerwear, (15, 55), .foundation⟩,
  ⟨"Overcoat", 9, .outerwear, (15, 50), .foundation⟩,
  ⟨"Workwear Jacket", 8, .outerwear, (20, 60), .core⟩,
  ⟨"Chore Coat", 8, .outerwear, (20, 60), .core⟩,
  ⟨"Bomber Jacket", 7, .outerwear, (15, 50), .foundation⟩,
  ⟨"Denim Jacket", 7, .outerwear, (30, 60), .core⟩,
  ⟨"Leather Jacket", 8, .outerwear, (10, 30), .foundation⟩,
  ⟨"Cardigan", 6, .outerwear, (20, 75), .core⟩,
  ⟨"Vest", 5, .outerwear, (15, 55), .core⟩,
  ⟨"Raincoat", 7, .outerwear, (15, 65), .foundation⟩,
  ⟨"Parka", 9, .outerwear, (15, 45), .foundation⟩,
  ⟨"Shirt Jacket", 7, .outerwear, (20, 65), .core⟩,
  ⟨"Dress", 9, .dresses, (15, 85), .core⟩,
  ⟨"Jumpsuit", 9, .dresses, (15, 65), .core⟩,
  ⟨"Dress Shoes", 3, .shoes, (10, 35), .foundation⟩,
  ⟨"Sneakers", 3, .shoes, (60, 97), .accent⟩,
  ⟨"Boots", 4, .shoes, (10, 35), .foundation⟩,
  ⟨"Chelsea Boots", 4, .shoes, (10, 40), .foundation⟩,
  ⟨"Loafers", 3, .shoes, (15, 45), .foundation⟩,
  ⟨"Sandals", 2, .shoes, (25, 60), .accent⟩,
  ⟨"High-Tops", 4, .shoes, (10, 40), .foundation⟩,
  ⟨"Slip-Ons", 3, .shoes, (15, 55), .foundation⟩,
  ⟨"Belt", 1, .accessories, (10, 40), .foundation⟩,
  ⟨"Watch", 1, .accessories, (20, 70), .accent⟩,
  ⟨"Scarf", 3, .accessories, (20, 75), .accent⟩,
  ⟨"Tote Bag", 4, .accessories, (20, 65), .accent⟩,
  ⟨"Crossbody Bag", 3, .accessories, (15, 50), .accent⟩,
  ⟨"Beanie", 2, .accessories, (10, 50), .accent⟩,
  ⟨"Cap", 2, .accessories, (15, 55), .accent⟩,
  ⟨"Sunglasses", 1, .accessories, (10, 30), .foundation⟩,
  ⟨"Bracelet", 1, .accessories, (20, 70), .accent⟩,
  ⟨"Ring", 1, .accessories, (30, 80), .accent⟩,
  ⟨"Tie", 2, .accessories, (15, 65), .accent⟩,
  ⟨"Pocket Square", 1, .accessories, (30, 85), .accent⟩,
  ⟨"Hat", 3, .accessories, (15, 55), .accent⟩,
  ⟨"Bag", 4, .accessories, (15, 55), .accent⟩,
  ⟨"Jewelry", 1, .accessories, (40, 80), .accent⟩,
  ⟨"Heels", 3, .shoes, (10, 45), .accent⟩]

/-- Function getWardrobeItem of src/engine/wardrobeCatalog.ts:
case-insensitive lookup, trimming the query. -/
def getWardrobeItem (name : String) : Option WardrobeItemType :=
  WARDROBE_CATALOG.find? (fun item => item.name.toLower == name.toLower.trim)

/-- Function baseName inside autoFillWardrobe: strip one trailing run of
digits preceded by whitespace (the regex replacing a whitespace-digits
suffix with nothing), leaving the name alone otherwise. -/
def baseName (name : String) : String :=
  let rev := name.data.reverse
  let digits := rev.takeWhile Char.isDigit
  let rest := rev.dropWhile Char.isDigit
  let spaces := rest.takeWhile Char.isWhitespace
  if digits ≠ [] ∧ spaces ≠ [] then
    String.mk (rest.dropWhile Char.isWhitespace).reverse
  else name

/-- Lane entry of autoFillWardrobe: item index, target lightness and the
width of the catalog lightness range. -/
structure LaneItem where
  idx : ℕ
  targetL : ℚ
  rangeWidth : ℚ
deriving DecidableEq

/-- First pass of autoFillWardrobe: number of unassigned instances per
base type name, built by folding the bump-map idiom of the source. -/
def typeCountsMap (items : List RoomItem) : String → ℕ :=
  items.foldl
    (fun m item =>
      if item.color.isSome then m
      else fun b => if b = baseName item.name then m b + 1 else m b)
    (fun _ => 0)

/-- Lane-building loop of autoFillWardrobe (lines 40-65 of the source):
walk the indexed items, skip assigned ones, give the k-th unassigned
instance of a type the target lightness spread across the catalog range
when the type has several unassigned instances and the range midpoint
when it is unique, and split by catalog role into the foundation lane and
the accent lane.  The source pushes each entry onto the tail of its lane
array; building the lanes by placing the entry in front of the lanes of
the remaining items yields the same lists. -/
def wardrobeLanesAux (tc : String → ℕ) :
    List (ℕ × RoomItem) → (String → ℕ) → List LaneItem × List LaneItem
  | [], _ => ([], [])
  | (i, item) :: rest, typeIdx =>
      if item.color.isSome then wardrobeLanesAux tc rest typeIdx
      else
        let base := baseName item.name
        let c0 := tc base
        let count := if c0 = 0 then 1 else c0
        let kIdx := typeIdx base
        let typeIdx2 : String → ℕ := fun b => if b = base then kIdx + 1 else typeIdx b
        let wi := getWardrobeItem base
        let range := (wi.map WardrobeItemType.lightnessRange).getD (20, 80)
        let role := (wi.map WardrobeItemType.role).getD .core
        let targetL : ℚ :=
          if 1 < count then
            range.1 + ((kIdx : ℚ) / ((count : ℚ) - 1)) * (range.2 - range.1)
          else (range.1 + range.2) / 2
        let entry : LaneItem := ⟨i, targetL, range.2 - range.1⟩
        let lanes := wardrobeLanesAux tc rest typeIdx2
        match role with
        | .foundation => (entry :: lanes.1, lanes.2)
        | _ => (lanes.1, entry :: lanes.2)

/-- Foundation and accent lanes built by autoFillWardrobe before any color
is assigned. -/
def wardrobeLanes (items : List RoomItem) : List LaneItem × List LaneItem :=
  wardrobeLanesAux (typeCountsMap items) items.enum (fun _ => 0)

/-- Chromatic palette split of autoFillWardrobe: colors with chroma above
12, sorted by descending chroma. -/
def wardrobeChromatic (palette : List Color) : List Color :=
  (palette.filter (fun c => decide (12 < c.chr))).mergeSort
    (fun a b => decide (b.chr ≤ a.chr))

/-- Index of the remaining chromatic color farthest (by its minimum deltaE
distance) from the accepted accent colors; first index wins ties, and the
best-so-far distance starts at -1 as in the source.  The source spreads
Math.min over a nonempty list, so the fallback value is never reached. -/
def accentPickIdx (remaining accentCols : List Color) : ℕ :=
  (remaining.enum.foldl
    (fun (acc : ℕ × ℝ) p =>
      let md := ((accentCols.map (fun ac => deltaE p.2 ac)).min?).getD 0
      if acc.2 < md then (p.1, md) else acc)
    (0, -1)).1

/-- Greedy diverse selection loop of autoFillWardrobe: the first accent
color is the most chromatic one, every further pick maximizes the minimum
distance to the colors already picked, and picked colors are removed from
the remaining pool.  Returns the picks together with the leftover pool. -/
def pickAccentColorsAux : ℕ → List Color → List Color → List Color × List Color
  | 0, remaining, acc => (acc, remaining)
  | _ + 1, [], acc => (acc, [])
  | n + 1, r :: rest, acc =>
      if acc.isEmpty then pickAccentColorsAux n rest (acc ++ [r])
      else
        let j := accentPickIdx (r :: rest) acc
        let c := (r :: rest).getD j defaultColor
        pickAccentColorsAux n ((r :: rest).eraseIdx j) (acc ++ [c])

/-- Index of the pool color whose lightness is nearest the target; first
index wins ties, the None accumulator modelling the Infinity starting
distance. -/
def nearestIdx (pool : List (Color × ℝ)) (targetL : ℚ) : ℕ :=
  (pool.enum.foldl
    (fun (acc : ℕ × Option ℝ) p =>
      let dist := |p.2.2 - (targetL : ℝ)|
      match acc.2 with
      | none => (p.1, some dist)
      | some bd => if dist < bd then (p.1, some dist) else acc)
    (0, none)).1

/-- Assignment of one chosen color to the item at the given index. -/
def updateColorAt (result : List RoomItem) (i : ℕ) (c : Color) : List RoomItem :=
  match result.get? i with
  | some it => result.set i { it with color := some c }
  | none => result

/-- Function matchByTarget inside autoFillWardrobe: each lane item picks
the pool color with the nearest lightness; with deplete the picked color
leaves the pool, and the loop stops early when the pool runs dry. -/
def matchByTarget (deplete : Bool) :
    List LaneItem → List (Color × ℝ) → List RoomItem → List RoomItem
  | [], _, result => result
  | _ :: _, [], result => result
  | item :: lane, pool, result =>
      let j := nearestIdx pool item.targetL
      let chosen := (pool.getD j (defaultColor, 0)).1
      let result2 := updateColorAt result item.idx chosen
      matchByTarget deplete lane (if deplete then pool.eraseIdx j else pool) result2

/-- Function autoFillWardrobe of src/engine/wardrobeAssigner.ts. -/
def autoFillWardrobe (items : List RoomItem) (palette : List Color) : List RoomItem :=
  if palette.isEmpty then items
  else
    let lanes := wardrobeLanes items
    let foundation := lanes.1
    let accent0 := lanes.2
    let chromaticCols := wardrobeChromatic palette
    let neutral := palette.filter (fun c => decide (c.chr ≤ 12))
    let pickResult := pickAccentColorsAux accent0.length chromaticCols []
    let accentColors := pickResult.1
    let remaining := pickResult.2
    let needed := foundation.length - neutral.length
    let extras := (remaining.mergeSort (fun a b => decide (a.chr ≤ b.chr))).take needed
    let foundationColors := neutral ++ extras
    let accent := accent0.mergeSort (fun a b => decide (a.rangeWidth ≤ b.rangeWidth))
    let mkPool := fun (cs : List Color) => cs.map (fun c => (c, c.lightness))
    if accentColors.isEmpty then
      matchByTarget false (foundation ++ accent) (mkPool palette) items
    else if foundationColors.isEmpty then
      matchByTarget true (foundation ++ accent) (mkPool palette) items
    else
      matchByTarget false foundation (mkPool foundationColors)
        (matchByTarget true accent (mkPool accentColors) items)

/-! Readings of the specification used to state the claims: the penalty
components of the lightness sub-score, the spec-side removal of a color
together with its weight, and the spread counts of the wardrobe lanes. -/

/-- Sorted lightness values of a color list, as the lightness sub-score
computes them. -/
def sortedLightness (colors : List Color) : List ℝ :=
  (colors.map Color.lightness).mergeSort (fun a b => decide (a ≤ b))

/-- Total range of the sorted lightness values. -/
def lightnessRangeOf (colors : List Color) : ℝ :=
  (sortedLightness colors).getD ((sortedLightness colors).length - 1) 0 -
    (sortedLightness colors).getD 0 0

/-- Consecutive gaps of the sorted lightness values. -/
def lightnessGaps (colors : List Color) : List ℝ :=
  ((sortedLightness colors).zip (sortedLightness colors).tail).map (fun p => p.2 - p.1)

/-- Flatness penalty of the lightness sub-score, as the specification
reads it: only a total range below 15 is penalized. -/
def rangePenalty (range : ℝ) : ℝ := if range < 15 then (15 - range) * 3 else 0

/-- Gap penalty of the lightness sub-score, as the specification reads
it: every gap above 20 contributes 1.2 times its excess. -/
def gapPenalty (gaps : List ℝ) : ℝ :=
  (gaps.map (fun g => if 20 < g then (g - 20) * 1.2 else 0)).sum

/-- Uneven-spacing penalty of the lightness sub-score, as the
specification reads it: 0.4 times the standard deviation of the gaps,
applied only when there are at least two gaps. -/
def gapSpreadPenalty (gaps : List ℝ) : ℝ :=
  if 1 < gaps.length then
    Real.sqrt ((gaps.map (fun g => (g - listMean gaps) ^ 2)).sum / gaps.length) * 0.4
  else 0

/-- Spec-side removal of one color together with its per-color weight:
the color positions matching the removed color leave, and the weights at
those positions leave with them. -/
def removeWithWeight (color : Color) (colors : List Color) (ws : List ℚ) :
    List Color × List ℚ :=
  let pairs := (colors.zip ws).filter (fun p => decide (¬p.1 = color))
  (pairs.map Prod.fst, pairs.map Prod.snd)

/-- Number of unassigned items of a base garment type. -/
def unassignedTypeCount (items : List RoomItem) (base : String) : ℕ :=
  items.countP (fun it => it.color.isNone && (baseName it.name == base))

/-- Target lightness the specification prescribes for the k-th of n
unassigned instances of one garment type over a catalog range. -/
def spreadTarget (n k : ℕ) (range : ℚ × ℚ) : ℚ :=
  if 1 < n then range.1 + ((k : ℚ) / ((n : ℚ) - 1)) * (range.2 - range.1)
  else (range.1 + range.2) / 2

/-! Theorems.  Each claim of the specification is settled by one theorem;
helper lemmas are shared. -/

/-- C1: for every list of colors, with any algorithm preset, optional
reference palette and optional per-color weights, computeHarmonyScore
returns an integer in the interval [0, 100], and for every input list of
fewer than 2 colors it returns exactly 100. -/
theorem computeHarmonyScore_bounds (colors : List Color)
    (algorithm : FillAlgorithm) (palette : List Color)
    (weights : Option (List ℚ)) :
    0 ≤ computeHarmonyScore colors algorithm palette weights ∧
    computeHarmonyScore colors algorithm palette weights ≤ 100 ∧
    (colors.length < 2 → computeHarmonyScore colors algorithm palette weights = 100) := by
  refine ⟨?_, ?_, ?_⟩
  · unfold computeHarmonyScore
    split
    · norm_num
    · exact le_max_left 0 _
  · unfold computeHarmonyScore
    split
    · norm_num
    · exact max_le (by norm_num) (min_le_left _ _)
  · intro h
    unfold computeHarmonyScore
    rw [if_pos h]

/-- Witness for C1 at the empty color list. -/
theorem computeHarmonyScore_bounds_witness :
    computeHarmonyScore [] FillAlgorithm.surfaceArea [] none = 100 :=
  (computeHarmonyScore_bounds [] FillAlgorithm.surfaceArea [] none).2.2 (by decide)

/-- C2: generateHarmony is deterministic.  In this embedding every source
of randomness is the mulberry32 state seeded with
batchSeed + variation * 7919 and threaded explicitly, so the output
sequence of colors (hence the sequence of their hex renderings) is a pure
function of the tuple (baseColors, mode, count, variationIndex,
batchSeed): two calls on the same tuple return the same sequence. -/
theorem generateHarmony_deterministic (lockedColors : List Color)
    (mode : HarmonyMode) (count variation batchSeed : ℤ) :
    generateHarmony lockedColors mode count variation batchSeed =
      generateHarmony lockedColors mode count variation batchSeed := rfl

/-- Base diversity value before the scarcity amplification. -/
theorem diversityBonus_base_le_of_le (u1 u2 : ℕ) (h : u1 ≤ u2) :
    (if u2 = 0 then (25 : ℚ) else if u2 = 1 then 8 else max (-10) (5 - (u2 : ℚ) * 5)) ≤
      (if u1 = 0 then (25 : ℚ) else if u1 = 1 then 8 else max (-10) (5 - (u1 : ℚ) * 5)) := by
  have h25 : ∀ u : ℕ, (if u = 0 then (25 : ℚ) else if u = 1 then 8 else
      max (-10) (5 - (u : ℚ) * 5)) ≤ 25 := by
    intro u
    split
    · norm_num
    split
    · norm_num
    · refine max_le (by norm_num) ?_
      have h0 : (0 : ℚ) ≤ (u : ℚ) * 5 := by positivity
      linarith
  match u1, h with
  | 0, h => simpa using h25 u2
  | 1, h =>
      rcases Nat.lt_or_ge u2 2 with h2 | h2
      · interval_cases u2
        norm_num
      · rw [if_neg (by omega : ¬u2 = 0), if_neg (by omega : ¬u2 = 1),
          if_neg (by norm_num : ¬(1 : ℕ) = 0), if_pos rfl]
        refine max_le (by norm_num) ?_
        have hc : (2 : ℚ) ≤ (u2 : ℚ) := by exact_mod_cast h2
        linarith
  | (n + 2), h =>
      rw [if_neg (by omega : ¬n + 2 = 0), if_neg (by omega : ¬n + 2 = 1),
        if_neg (by omega : ¬u2 = 0), if_neg (by omega : ¬u2 = 1)]
      refine max_le_max le_rfl ?_
      have hc : ((n : ℚ) + 2) ≤ (u2 : ℚ) := by exact_mod_cast h
      push_cast
      linarith

/-- C5: the diversity bonus of the item fitness function is monotonically
non-increasing in the usage count of the candidate color, strictly larger
at zero uses than at one use, strictly negative (a penalty) from two uses
on, and an additional 10-point penalty hits every already-used color
exactly when the palette is larger than the number of remaining
unassigned items. -/
theorem diversityBonus_spec :
    (∀ u1 u2 p t : ℕ, u1 ≤ u2 → diversityBonus u2 p t ≤ diversityBonus u1 p t) ∧
    (∀ p t : ℕ, diversityBonus 1 p t < diversityBonus 0 p t) ∧
    (∀ u p t : ℕ, 2 ≤ u → diversityBonus u p t < 0) ∧
    (∀ u p t : ℕ, 0 < u → t < p →
      diversityBonus u p t = diversityBonus u p p - 10) := by
  refine ⟨?_, ?_, ?_, ?_⟩
  · intro u1 u2 p t h
    simp only [diversityBonus]
    have hbase := diversityBonus_base_le_of_le u1 u2 h
    by_cases hc1 : t < p ∧ 0 < u1
    · have hc2 : t < p ∧ 0 < u2 := ⟨hc1.1, lt_of_lt_of_le hc1.2 h⟩
      rw [if_pos hc1, if_pos hc2]
      linarith
    · rw [if_neg hc1]
      split
      · linarith
      · linarith
  · intro p t
    simp only [diversityBonus]
    rw [if_neg (by omega : ¬(t < p ∧ 0 < (0 : ℕ)))]
    norm_num
    split <;> norm_num
  · intro u p t hu
    have hu0 : u ≠ 0 := by omega
    have hu1 : u ≠ 1 := by omega
    simp only [diversityBonus]
    rw [if_neg hu0, if_neg hu1]
    have hb : max (-10 : ℚ) (5 - (u : ℚ) * 5) ≤ -5 := by
      refine max_le (by norm_num) ?_
      have hc : (2 : ℚ) ≤ (u : ℚ) := by exact_mod_cast hu
      linarith
    split
    · linarith
    · linarith
  · intro u p t hu hp
    simp only [diversityBonus]
    rw [if_pos ⟨hp, hu⟩, if_neg (by omega : ¬(p < p ∧ 0 < u))]

/-- Folding repeated subtraction equals subtracting the sum. -/
theorem foldlSubMap (f : ℝ → ℝ) :
    ∀ (l : List ℝ) (s : ℝ), l.foldl (fun a g => a - f g) s = s - (l.map f).sum
  | [], s => by simp
  | g :: l, s => by
      rw [List.foldl_cons, foldlSubMap f l (s - f g)]
      rw [List.map_cons, List.sum_cons]
      ring

/-- Folding repeated addition equals adding the sum. -/
theorem foldlAddMap (f : ℝ → ℝ) :
    ∀ (l : List ℝ) (s : ℝ), l.foldl (fun a g => a + f g) s = s + (l.map f).sum
  | [], s => by simp
  | g :: l, s => by
      rw [List.foldl_cons, foldlAddMap f l (s + f g)]
      rw [List.map_cons, List.sum_cons]
      ring

/-- Moving a conditional penalty out of the branch. -/
theorem subIte (c : Prop) [Decidable c] (a b : ℝ) :
    (if c then a - b else a) = a - (if c then b else 0) := by
  split
  · rfl
  · rw [sub_zero]

/-- The sort the engine applies to a two-element multiset of reals. -/
theorem mergeSortPairOfPerm (x y : ℝ) (hxy : x ≤ y) (l : List ℝ)
    (hp : l.Perm [x, y]) :
    l.mergeSort (fun a b => decide (a ≤ b)) = [x, y] := by
  have htrans : ∀ a b c : ℝ, (fun a b => decide (a ≤ b)) a b = true →
      (fun a b => decide (a ≤ b)) b c = true →
      (fun a b => decide (a ≤ b)) a c = true := by
    intro a b c hab hbc
    exact decide_eq_true (le_trans (of_decide_eq_true hab) (of_decide_eq_true hbc))
  have htotal : ∀ a b : ℝ, ((fun a b => decide (a ≤ b)) a b ||
      (fun a b => decide (a ≤ b)) b a) = true := by
    intro a b
    rcases le_total a b with h | h
    · simp [h]
    · simp [h]
  have hs1 : (l.mergeSort (fun a b => decide (a ≤ b))).Sorted (· ≤ ·) :=
    (List.sorted_mergeSort htrans htotal l).imp (fun h => of_decide_eq_true h)
  have hs2 : ([x, y] : List ℝ).Sorted (· ≤ ·) :=
    List.sorted_cons.mpr ⟨by simpa using hxy, List.sorted_singleton y⟩
  exact List.eq_of_perm_of_sorted ((List.mergeSort_perm l _).trans hp) hs1 hs2

/-- The engine's ascending sort leaves an already sorted real list unchanged. -/
theorem mergeSortOfSorted (l : List ℝ) (hl : l.Sorted (· ≤ ·)) :
    l.mergeSort (fun a b => decide (a ≤ b)) = l := by
  have htrans : ∀ a b c : ℝ, (fun a b => decide (a ≤ b)) a b = true →
      (fun a b => decide (a ≤ b)) b c = true →
      (fun a b => decide (a ≤ b)) a c = true := by
    intro a b c hab hbc
    exact decide_eq_true (le_trans (of_decide_eq_true hab) (of_decide_eq_true hbc))
  have htotal : ∀ a b : ℝ, ((fun a b => decide (a ≤ b)) a b ||
      (fun a b => decide (a ≤ b)) b a) = true := by
    intro a b
    rcases le_total a b with h | h
    · simp [h]
    · simp [h]
  have hs1 : (l.mergeSort (fun a b => decide (a ≤ b))).Sorted (· ≤ ·) :=
    (List.sorted_mergeSort htrans htotal l).imp (fun h => of_decide_eq_true h)
  exact List.eq_of_perm_of_sorted (List.mergeSort_perm l _) hs1 hl

/-- Rounding of the two combined scores arising in the duplicate-color
counterexample. -/
theorem roundEightySixMix : round ((100 : ℝ) * 0.45 + 100 * 0.25 + 52 * 0.30) = 86 := by
  have h : (100 : ℝ) * 0.45 + 100 * 0.25 + 52 * 0.30 = 85.6 := by norm_num
  rw [h, round_eq, Int.floor_eq_iff]
  constructor
  · norm_num
  · norm_num

/-- Hue sub-score of the achromatic pair used in the duplicate-color
counterexample. -/
theorem hueCohesionNeutralPair :
    hueCohesionScore [Color.lch 20 0 0, Color.lch 80 0 0] [] = 100 := by
  have hfil : [Color.lch 20 0 0, Color.lch 80 0 0].filter
      (fun c => decide (8 < c.chr)) = [] := by
    simp only [List.filter_cons, List.filter_nil]
    rw [decide_eq_false (by norm_num [Color.chr] : ¬(8 : ℝ) < (Color.lch 20 0 0).chr),
      decide_eq_false (by norm_num [Color.chr] : ¬(8 : ℝ) < (Color.lch 80 0 0).chr)]
    simp
  simp only [hueCohesionScore]
  rw [hfil]
  simp

/-- Saturation sub-score of the achromatic pair. -/
theorem satNeutralPair :
    saturationCoherenceScore [Color.lch 20 0 0, Color.lch 80 0 0] = 100 := by
  have hmap : [Color.lch 20 0 0, Color.lch 80 0 0].map Color.chr = [0, 0] := by
    simp [Color.chr]
  simp only [saturationCoherenceScore]
  rw [hmap]
  have hmean : listMean [(0 : ℝ), 0] = 0 := by
    rw [listMean]
    norm_num
  rw [hmean]
  norm_num [List.foldl_cons, List.foldl_nil, Real.sqrt_zero]

/-- Lightness sub-score of the achromatic pair. -/
theorem lightNeutralPair :
    lightnessReasonablenessScore [Color.lch 20 0 0, Color.lch 80 0 0] = 52 := by
  have hmap : [Color.lch 20 0 0, Color.lch 80 0 0].map Color.lightness = [20, 80] := by
    simp [Color.lightness]
  have hsorted : ([20, 80] : List ℝ).mergeSort (fun a b => decide (a ≤ b)) = [20, 80] := by
    refine mergeSortOfSorted [20, 80] ?_
    refine List.sorted_cons.mpr ⟨?_, List.sorted_singleton 80⟩
    intro b hb
    rw [List.mem_singleton] at hb
    rw [hb]
    norm_num
  simp only [lightnessReasonablenessScore]
  rw [hmap, hsorted]
  norm_num [List.getD, List.foldl_cons, List.foldl_nil]

/-- Harmony score of the pair under the length-mismatched weight list the
engine builds after removing both copies of a duplicated color: the
weights are ignored and the pair scores 86. -/
theorem computeHarmonyMismatchedPair :
    computeHarmonyScore [Color.lch 20 0 0, Color.lch 80 0 0] FillAlgorithm.surfaceArea
      [] (some [5, 1, 2]) = 86 := by
  have hexp : expandByWeights [Color.lch 20 0 0, Color.lch 80 0 0] (some [5, 1, 2]) =
      [Color.lch 20 0 0, Color.lch 80 0 0] := by
    simp only [expandByWeights]
    rw [if_pos (by simp : (([5, 1, 2] : List ℚ)).length ≠
      ([Color.lch 20 0 0, Color.lch 80 0 0]).length)]
  have hpc : getPaletteHueClusters [] = [] := by
    simp [getPaletteHueClusters]
  simp only [computeHarmonyScore]
  rw [if_neg (by simp : ¬([Color.lch 20 0 0, Color.lch 80 0 0].length < 2))]
  rw [hexp, hpc, hueCohesionNeutralPair, satNeutralPair, lightNeutralPair]
  simp only [algorithmWeights]
  rw [roundEightySixMix]
  decide

/-- Rounding of the combined score of the weight-expanded triple. -/
theorem roundEightyTwoMix : round ((100 : ℝ) * 0.45 + 100 * 0.25 + 40 * 0.30) = 82 := by
  have h : (100 : ℝ) * 0.45 + 100 * 0.25 + 40 * 0.30 = 82 := by norm_num
  rw [h, round_eq, Int.floor_eq_iff]
  constructor
  · norm_num
  · norm_num

/-- Hue sub-score of the achromatic weight-expanded triple. -/
theorem hueCohesionNeutralTriple :
    hueCohesionScore [Color.lch 20 0 0, Color.lch 80 0 0, Color.lch 80 0 0] [] = 100 := by
  have hfil : [Color.lch 20 0 0, Color.lch 80 0 0, Color.lch 80 0 0].filter
      (fun c => decide (8 < c.chr)) = [] := by
    simp only [List.filter_cons, List.filter_nil]
    rw [decide_eq_false (by norm_num [Color.chr] : ¬(8 : ℝ) < (Color.lch 20 0 0).chr),
      decide_eq_false (by norm_num [Color.chr] : ¬(8 : ℝ) < (Color.lch 80 0 0).chr)]
    simp
  simp only [hueCohesionScore]
  rw [hfil]
  simp

/-- Saturation sub-score of the achromatic weight-expanded triple. -/
theorem satNeutralTriple :
    saturationCoherenceScore [Color.lch 20 0 0, Color.lch 80 0 0, Color.lch 80 0 0] = 100 := by
  have hmap : [Color.lch 20 0 0, Color.lch 80 0 0, Color.lch 80 0 0].map Color.chr =
      [0, 0, 0] := by
    simp [Color.chr]
  simp only [saturationCoherenceScore]
  rw [hmap]
  have hmean : listMean [(0 : ℝ), 0, 0] = 0 := by
    rw [listMean]
    norm_num
  rw [hmean]
  norm_num [List.foldl_cons, List.foldl_nil, Real.sqrt_zero]

/-- Lightness sub-score of the achromatic weight-expanded triple: the two
gaps 60 and 0 add the gap penalty 48 and the gap-spread penalty 12. -/
theorem lightNeutralTriple :
    lightnessReasonablenessScore [Color.lch 20 0 0, Color.lch 80 0 0, Color.lch 80 0 0] =
      40 := by
  have hmap : [Color.lch 20 0 0, Color.lch 80 0 0, Color.lch 80 0 0].map Color.lightness =
      [20, 80, 80] := by
    simp [Color.lightness]
  have hsorted : ([20, 80, 80] : List ℝ).mergeSort (fun a b => decide (a ≤ b)) =
      [20, 80, 80] := by
    refine mergeSortOfSorted [20, 80, 80] ?_
    refine List.sorted_cons.mpr ⟨?_, ?_⟩
    · intro b hb
      rcases List.mem_cons.mp hb with h | h
      · rw [h]; norm_num
      · rw [List.mem_singleton] at h
        rw [h]; norm_num
    · refine List.sorted_cons.mpr ⟨?_, List.sorted_singleton 80⟩
      intro b hb
      rw [List.mem_singleton] at hb
      rw [hb]
  have hgaps : ((([20, 80, 80] : List ℝ).zip ([20, 80, 80] : List ℝ).tail).map
      (fun p => p.2 - p.1)) = [60, 0] := by
    rw [List.tail_cons, List.zip_cons_cons, List.zip_cons_cons, List.zip_nil_right]
    simp only [List.map_cons, List.map_nil]
    norm_num
  have hmeangap : listMean [(60 : ℝ), 0] = 30 := by
    rw [listMean]
    norm_num
  simp only [lightnessReasonablenessScore]
  rw [hmap, hsorted, hgaps, hmeangap]
  norm_num [List.getD, List.foldl_cons, List.foldl_nil]
  rw [show (900 : ℝ) = 30 ^ 2 by norm_num, Real.sqrt_sq (by norm_num : (0 : ℝ) ≤ 30)]
  norm_num

/-- Harmony score of the pair under its own spec-side weights 1 and 2: the
expansion to a triple scores 82. -/
theorem computeHarmonyWeightedPair :
    computeHarmonyScore [Color.lch 20 0 0, Color.lch 80 0 0] FillAlgorithm.surfaceArea
      [] (some [1, 2]) = 82 := by
  have hr1 : (max 1 (round (1 : ℚ))).toNat = 1 := by
    have h : round (1 : ℚ) = 1 := by
      rw [round_eq]
      norm_num
    rw [h]
    decide
  have hr2 : (max 1 (round (2 : ℚ))).toNat = 2 := by
    have h : round (2 : ℚ) = 2 := by
      rw [round_eq]
      norm_num
    rw [h]
    decide
  have hexp : expandByWeights [Color.lch 20 0 0, Color.lch 80 0 0] (some [1, 2]) =
      [Color.lch 20 0 0, Color.lch 80 0 0, Color.lch 80 0 0] := by
    simp only [expandByWeights]
    rw [if_neg (by simp : ¬(([1, 2] : List ℚ)).length ≠
      ([Color.lch 20 0 0, Color.lch 80 0 0]).length)]
    rw [List.zip_cons_cons, List.zip_cons_cons, List.zip_nil_left]
    simp only [List.flatMap_cons, List.flatMap_nil]
    rw [hr1, hr2]
    rfl
  have hpc : getPaletteHueClusters [] = [] := by
    simp [getPaletteHueClusters]
  simp only [computeHarmonyScore]
  rw [if_neg (by simp : ¬([Color.lch 20 0 0, Color.lch 80 0 0].length < 2))]
  rw [hexp, hpc, hueCohesionNeutralTriple, satNeutralTriple, lightNeutralTriple]
  simp only [algorithmWeights]
  rw [roundEightyTwoMix]
  decide

/-- C8: the lightness sub-score decomposes into a flatness penalty that
hits exactly the total ranges below 15, a gap penalty of 1.2 times the
excess of every adjacent gap above 20, and a light 0.4-weighted penalty on
the standard deviation of the gaps; a wide total range itself incurs no
penalty (any range at or above 15 makes the score independent of the
flatness penalty). -/
theorem lightnessReasonableness_spec :
    (∀ colors : List Color,
      lightnessReasonablenessScore colors =
        max 0 (min 100 (100 - rangePenalty (lightnessRangeOf colors) -
          gapPenalty (lightnessGaps colors) - gapSpreadPenalty (lightnessGaps colors)))) ∧
    (∀ r : ℝ, 15 ≤ r → rangePenalty r = 0) ∧
    (∀ r : ℝ, r < 15 → 0 < rangePenalty r) ∧
    (∀ gaps : List ℝ, (∀ g ∈ gaps, g ≤ 20) → gapPenalty gaps = 0) ∧
    (∀ gaps : List ℝ, 1 < gaps.length → (∀ g ∈ gaps, g = listMean gaps) →
      gapSpreadPenalty gaps = 0) ∧
    (∀ colors : List Color, 15 ≤ lightnessRangeOf colors →
      lightnessReasonablenessScore colors =
        max 0 (min 100 (100 - gapPenalty (lightnessGaps colors) -
          gapSpreadPenalty (lightnessGaps colors)))) := by
  have hdec : ∀ colors : List Color,
      lightnessReasonablenessScore colors =
        max 0 (min 100 (100 - rangePenalty (lightnessRangeOf colors) -
          gapPenalty (lightnessGaps colors) - gapSpreadPenalty (lightnessGaps colors))) := by
    intro colors
    simp only [lightnessReasonablenessScore, sortedLightness, lightnessRangeOf,
      lightnessGaps, rangePenalty, gapPenalty, gapSpreadPenalty]
    rw [subIte, foldlSubMap (fun g => if 20 < g then (g - 20) * 1.2 else 0)]
    simp only [foldlAddMap, zero_add]
  have h15 : ∀ r : ℝ, 15 ≤ r → rangePenalty r = 0 := by
    intro r h
    rw [rangePenalty, if_neg (not_lt.mpr h)]
  refine ⟨hdec, h15, ?_, ?_, ?_, ?_⟩
  · intro r h
    rw [rangePenalty, if_pos h]
    nlinarith
  · intro gaps h
    rw [gapPenalty]
    refine List.sum_eq_zero ?_
    intro x hx
    obtain ⟨g, hg, rfl⟩ := List.mem_map.mp hx
    rw [if_neg (not_lt.mpr (h g hg))]
  · intro gaps hlen hg
    rw [gapSpreadPenalty, if_pos hlen]
    have hz : (gaps.map (fun g => (g - listMean gaps) ^ 2)).sum = 0 := by
      refine List.sum_eq_zero ?_
      intro x hx
      obtain ⟨g, hgm, rfl⟩ := List.mem_map.mp hx
      rw [hg g hgm]
      ring
    rw [hz]
    simp
  · intro colors h
    rw [hdec colors, h15 _ h, sub_zero]

/-- Witness for C8 at concrete ranges, gap lists and a concrete room. -/
theorem lightnessReasonableness_spec_witness :
    rangePenalty 20 = 0 ∧ 0 < rangePenalty 10 ∧ gapPenalty [5, 10] = 0 ∧
    gapSpreadPenalty [7, 7] = 0 ∧
    lightnessReasonablenessScore [Color.lch 60 0 0, Color.lch 20 0 0] =
      max 0 (min 100 (100 - gapPenalty (lightnessGaps [Color.lch 60 0 0, Color.lch 20 0 0]) -
        gapSpreadPenalty (lightnessGaps [Color.lch 60 0 0, Color.lch 20 0 0]))) := by
  have hsort : sortedLightness [Color.lch 60 0 0, Color.lch 20 0 0] = [20, 60] := by
    rw [sortedLightness]
    have hm : ([Color.lch 60 0 0, Color.lch 20 0 0].map Color.lightness) =
        [(60 : ℝ), 20] := by
      simp [Color.lightness]
    rw [hm]
    exact mergeSortPairOfPerm 20 60 (by norm_num) _ (List.Perm.swap 20 60 [])
  refine ⟨lightnessReasonableness_spec.2.1 20 (by norm_num),
          lightnessReasonableness_spec.2.2.1 10 (by norm_num),
          lightnessReasonableness_spec.2.2.2.1 [5, 10] ?_,
          lightnessReasonableness_spec.2.2.2.2.1 [7, 7] (by norm_num) ?_,
          lightnessReasonableness_spec.2.2.2.2.2 _ ?_⟩
  · intro g hg
    rcases List.mem_cons.mp hg with h | h
    · rw [h]; norm_num
    · rcases List.mem_cons.mp h with h2 | h2
      · rw [h2]; norm_num
      · exact absurd h2 (List.not_mem_nil g)
  · intro g hg
    have hmean : listMean [(7 : ℝ), 7] = 7 := by
      rw [listMean]
      norm_num
    rcases List.mem_cons.mp hg with h | h
    · rw [h, hmean]
    · rcases List.mem_cons.mp h with h2 | h2
      · rw [h2, hmean]
      · exact absurd h2 (List.not_mem_nil g)
  · rw [lightnessRangeOf, hsort]
    norm_num [List.getD]

/-- Filtering the pairs of a zip by the first component against a color
occurring at most once equals zipping the filtered colors with the weight
list lacking the entry at the first matching position. -/
theorem zipFilterErase (color : Color) :
    ∀ (cs : List Color) (ws : List ℚ), cs.count color ≤ 1 → ws.length = cs.length →
      (cs.zip ws).filter (fun p => decide (¬p.1 = color)) =
        (cs.filter (fun c => decide (¬c = color))).zip
          (ws.eraseIdx (cs.findIdx (fun c => decide (c = color))))
  | [], ws, _, _ => by simp
  | c :: cs, [], _, hlen => by simp at hlen
  | c :: cs, w :: ws, hc, hlen => by
      have hlen2 : ws.length = cs.length := by simpa using hlen
      by_cases hcc : c = color
      · subst hcc
        have hcnt : cs.count c = 0 := by
          have hself := List.count_cons_self c cs
          omega
        have hnm : c ∉ cs := List.count_eq_zero.mp hcnt
        have hfz : (cs.zip ws).filter (fun p => decide (¬p.1 = c)) = cs.zip ws := by
          refine List.filter_eq_self.mpr ?_
          intro p hp
          have hp1 : p.1 ∈ cs := (List.of_mem_zip (a := p.1) (b := p.2) (by simpa using hp)).1
          have : ¬p.1 = c := fun he => hnm (he ▸ hp1)
          simpa using this
        have hfc : cs.filter (fun x => decide (¬x = c)) = cs := by
          refine List.filter_eq_self.mpr ?_
          intro x hx
          have : ¬x = c := fun he => hnm (he ▸ hx)
          simpa using this
        have hidx : List.findIdx (fun x => decide (x = c)) (c :: cs) = 0 := by
          rw [List.findIdx_cons]
          simp
        rw [List.zip_cons_cons, hidx, List.eraseIdx_cons_zero, List.filter_cons,
          List.filter_cons]
        simp only [decide_not, decide_eq_true_eq]
        rw [if_neg (by simp), if_neg (by simp)]
        rw [show (cs.zip ws).filter (fun p => !decide (p.1 = c)) = cs.zip ws from by
          simpa [decide_not] using hfz]
        rw [show cs.filter (fun x => !decide (x = c)) = cs from by
          simpa [decide_not] using hfc]
      · have hc2 : cs.count color ≤ 1 :=
          le_trans ((List.sublist_cons_self c cs).count_le color) hc
        have hidx : List.findIdx (fun x => decide (x = color)) (c :: cs) =
            List.findIdx (fun x => decide (x = color)) cs + 1 := by
          rw [List.findIdx_cons]
          simp [hcc]
        rw [List.zip_cons_cons, hidx, List.eraseIdx_cons_succ, List.filter_cons,
          List.filter_cons]
        rw [if_pos (by simpa using hcc), if_pos (by simpa using hcc)]
        rw [List.zip_cons_cons]
        rw [zipFilterErase color cs ws hc2 hlen2]

/-- Length bookkeeping for the weight removal matching the color
removal. -/
theorem eraseIdxLenEq (color : Color) :
    ∀ (cs : List Color) (ws : List ℚ), cs.count color ≤ 1 → ws.length = cs.length →
      (ws.eraseIdx (cs.findIdx (fun c => decide (c = color)))).length =
        (cs.filter (fun c => decide (¬c = color))).length
  | [], ws, _, hlen => by simp [List.length_eq_zero.mp hlen]
  | c :: cs, [], _, hlen => by simp at hlen
  | c :: cs, w :: ws, hc, hlen => by
      have hlen2 : ws.length = cs.length := by simpa using hlen
      by_cases hcc : c = color
      · subst hcc
        have hcnt : cs.count c = 0 := by
          have hself := List.count_cons_self c cs
          omega
        have hnm : c ∉ cs := List.count_eq_zero.mp hcnt
        have hfc : cs.filter (fun x => decide (¬x = c)) = cs := by
          refine List.filter_eq_self.mpr ?_
          intro x hx
          have : ¬x = c := fun he => hnm (he ▸ hx)
          simpa using this
        have hidx : List.findIdx (fun x => decide (x = c)) (c :: cs) = 0 := by
          rw [List.findIdx_cons]
          simp
        rw [hidx, List.eraseIdx_cons_zero, List.filter_cons]
        rw [if_neg (by simp), hfc, hlen2]
      · have hc2 : cs.count color ≤ 1 :=
          le_trans ((List.sublist_cons_self c cs).count_le color) hc
        have hidx : List.findIdx (fun x => decide (x = color)) (c :: cs) =
            List.findIdx (fun x => decide (x = color)) cs + 1 := by
          rw [List.findIdx_cons]
          simp [hcc]
        rw [hidx, List.eraseIdx_cons_succ, List.filter_cons,
          if_pos (by simpa using hcc)]
        simp only [List.length_cons]
        rw [eraseIdxLenEq color cs ws hc2 hlen2]

/-- Components of the spec-side paired removal coincide with the filter
and the weight-index erasure the engine performs, when the color occurs
at most once. -/
theorem removeWithWeightEq (color : Color) (cs : List Color) (ws : List ℚ)
    (hc : cs.count color ≤ 1) (hlen : ws.length = cs.length) :
    (removeWithWeight color cs ws).1 = cs.filter (fun c => decide (¬c = color)) ∧
    (removeWithWeight color cs ws).2 =
      ws.eraseIdx (cs.findIdx (fun c => decide (c = color))) := by
  have hz := zipFilterErase color cs ws hc hlen
  have hl := eraseIdxLenEq color cs ws hc hlen
  constructor
  · simp only [removeWithWeight]
    rw [hz]
    exact List.map_fst_zip _ _ (le_of_eq hl.symm)
  · simp only [removeWithWeight]
    rw [hz]
    exact List.map_snd_zip _ _ (le_of_eq hl)

/-- C6 (amended): the original universal claim fails for duplicated
colors, as the counterexample below shows; when the color occurs at most
once in the list, the per-item delta is exactly the harmony score of the
whole list minus the harmony score of the list with that color (and its
weight) removed, the delta being 0 exactly when the removal leaves fewer
than two colors. -/
theorem itemScoreDelta_spec (color : Color) (allColors : List Color)
    (algorithm : FillAlgorithm) (palette : List Color) (ws : List ℚ)
    (hcount : allColors.count color ≤ 1) (hlen : ws.length = allColors.length) :
    itemScoreDelta color allColors algorithm palette (some ws) =
      if (removeWithWeight color allColors ws).1.length < 2 then 0
      else
        computeHarmonyScore allColors algorithm palette (some ws) -
          computeHarmonyScore (removeWithWeight color allColors ws).1 algorithm palette
            (some (removeWithWeight color allColors ws).2) := by
  obtain ⟨h1, h2⟩ := removeWithWeightEq color allColors ws hcount hlen
  simp only [itemScoreDelta, Option.map_some']
  rw [h1, h2]

/-- C6 counterexample: the claim as stated is universal over color lists,
but with a duplicated color the engine and the remove-color-with-weight
reading disagree.  With the list [c, c, x, y] and weights [5, 5, 1, 2] the
source filter removes both copies of c while only the weight at the first
matching index is dropped, so the second score receives weights [5, 1, 2]
for the two colors [x, y]; the length mismatch makes expandByWeights
ignore the weights there (score 86), while removing c together with its
weight scores [x, y] under the weights [1, 2] (expansion [x, y, y],
score 82), so the two deltas differ. -/
theorem itemScoreDelta_spec_counterexample :
    itemScoreDelta (Color.lch 50 0 0)
        [Color.lch 50 0 0, Color.lch 50 0 0, Color.lch 20 0 0, Color.lch 80 0 0]
        FillAlgorithm.surfaceArea [] (some [5, 5, 1, 2]) ≠
      (if (removeWithWeight (Color.lch 50 0 0)
              [Color.lch 50 0 0, Color.lch 50 0 0, Color.lch 20 0 0, Color.lch 80 0 0]
              [5, 5, 1, 2]).1.length < 2 then 0
        else
          computeHarmonyScore
              [Color.lch 50 0 0, Color.lch 50 0 0, Color.lch 20 0 0, Color.lch 80 0 0]
              FillAlgorithm.surfaceArea [] (some [5, 5, 1, 2]) -
            computeHarmonyScore
              (removeWithWeight (Color.lch 50 0 0)
                [Color.lch 50 0 0, Color.lch 50 0 0, Color.lch 20 0 0, Color.lch 80 0 0]
                [5, 5, 1, 2]).1
              FillAlgorithm.surfaceArea []
              (some (removeWithWeight (Color.lch 50 0 0)
                [Color.lch 50 0 0, Color.lch 50 0 0, Color.lch 20 0 0, Color.lch 80 0 0]
                [5, 5, 1, 2]).2)) := by
  have hne_x : ¬ Color.lch 20 0 0 = Color.lch 50 0 0 := by
    intro h
    rw [Color.lch.injEq] at h
    norm_num at h
  have hne_y : ¬ Color.lch 80 0 0 = Color.lch 50 0 0 := by
    intro h
    rw [Color.lch.injEq] at h
    norm_num at h
  have hrw : removeWithWeight (Color.lch 50 0 0)
      [Color.lch 50 0 0, Color.lch 50 0 0, Color.lch 20 0 0, Color.lch 80 0 0]
      [5, 5, 1, 2] = ([Color.lch 20 0 0, Color.lch 80 0 0], [1, 2]) := by
    simp only [removeWithWeight]
    rw [show ([Color.lch 50 0 0, Color.lch 50 0 0, Color.lch 20 0 0,
        Color.lch 80 0 0].zip ([5, 5, 1, 2] : List ℚ)) =
      [(Color.lch 50 0 0, 5), (Color.lch 50 0 0, 5), (Color.lch 20 0 0, 1),
        (Color.lch 80 0 0, 2)] from rfl]
    simp [hne_x, hne_y]
  have hfilter : [Color.lch 50 0 0, Color.lch 50 0 0, Color.lch 20 0 0,
      Color.lch 80 0 0].filter (fun z => decide (¬z = Color.lch 50 0 0)) =
      [Color.lch 20 0 0, Color.lch 80 0 0] := by
    simp [hne_x, hne_y]
  have hidx : List.findIdx (fun z => decide (z = Color.lch 50 0 0))
      [Color.lch 50 0 0, Color.lch 50 0 0, Color.lch 20 0 0, Color.lch 80 0 0] = 0 := by
    rw [List.findIdx_cons]
    simp
  have hL : itemScoreDelta (Color.lch 50 0 0)
      [Color.lch 50 0 0, Color.lch 50 0 0, Color.lch 20 0 0, Color.lch 80 0 0]
      FillAlgorithm.surfaceArea [] (some [5, 5, 1, 2]) =
      computeHarmonyScore
        [Color.lch 50 0 0, Color.lch 50 0 0, Color.lch 20 0 0, Color.lch 80 0 0]
        FillAlgorithm.surfaceArea [] (some [5, 5, 1, 2]) - 86 := by
    simp only [itemScoreDelta, Option.map_some']
    rw [hfilter, hidx]
    rw [if_neg (by simp : ¬([Color.lch 20 0 0, Color.lch 80 0 0].length < 2))]
    rw [List.eraseIdx_cons_zero, computeHarmonyMismatchedPair]
  intro heq
  rw [hL, hrw] at heq
  dsimp only at heq
  rw [if_neg (by simp : ¬([Color.lch 20 0 0, Color.lch 80 0 0].length < 2)),
    computeHarmonyWeightedPair] at heq
  omega

/-- Any color the argmax fold produces comes from the accumulator or from
the scanned list. -/
theorem pickBestFoldMem (f : Color → ℝ) :
    ∀ (l : List Color) (acc : Option (Color × ℝ)) (c : Color) (s : ℝ),
      l.foldl (fun acc candidate =>
        match acc with
        | none => some (candidate, f candidate)
        | some (b, bs) => if bs < f candidate then some (candidate, f candidate)
          else some (b, bs)) acc = some (c, s) →
      acc = some (c, s) ∨ c ∈ l
  | [], acc, c, s => fun h => Or.inl h
  | x :: l, acc, c, s => by
      intro h
      rw [List.foldl_cons] at h
      rcases pickBestFoldMem f l _ c s h with h2 | h2
      · rcases acc with _ | ⟨b, bs⟩
        · dsimp only at h2
          rw [Option.some_inj] at h2
          rw [(Prod.mk.injEq _ _ _ _).mp h2.symm |>.1]
          exact Or.inr (List.mem_cons_self x l)
        · dsimp only at h2
          by_cases hlt : bs < f x
          · rw [if_pos hlt, Option.some_inj] at h2
            rw [(Prod.mk.injEq _ _ _ _).mp h2.symm |>.1]
            exact Or.inr (List.mem_cons_self x l)
          · rw [if_neg hlt] at h2
            exact Or.inl h2
      · exact Or.inr (List.mem_cons_of_mem x h2)

/-- The argmax fold produces a value whenever the accumulator holds one
or the list is nonempty. -/
theorem pickBestFoldSome (f : Color → ℝ) :
    ∀ (l : List Color) (acc : Option (Color × ℝ)), acc.isSome ∨ l ≠ [] →
      (l.foldl (fun acc candidate =>
        match acc with
        | none => some (candidate, f candidate)
        | some (b, bs) => if bs < f candidate then some (candidate, f candidate)
          else some (b, bs)) acc).isSome
  | [], acc => by
      intro h
      rcases h with h | h
      · simpa using h
      · exact absurd rfl h
  | x :: l, acc => by
      intro _
      rw [List.foldl_cons]
      refine pickBestFoldSome f l _ (Or.inl ?_)
      rcases acc with _ | ⟨b, bs⟩
      · simp
      · dsimp only
        split
        · simp
        · simp

/-- A color chosen by the argmax loop is a palette color. -/
theorem pickBest_mem (palette : List Color) (f : Color → ℝ) (c : Color)
    (h : pickBest palette f = some c) : c ∈ palette := by
  rw [pickBest] at h
  rcases Option.map_eq_some'.mp h with ⟨⟨b, bs⟩, hfold, hb⟩
  rcases pickBestFoldMem f palette none b bs hfold with h2 | h2
  · exact absurd h2 (by simp)
  · rw [← hb]
    exact h2

/-- On a nonempty palette the argmax loop always chooses a color. -/
theorem pickBest_isSome (palette : List Color) (f : Color → ℝ)
    (h : palette ≠ []) : ∃ c, pickBest palette f = some c := by
  rw [pickBest]
  have hs := pickBestFoldSome f palette none (Or.inr h)
  rcases Option.isSome_iff_exists.mp hs with ⟨⟨b, bs⟩, hb⟩
  exact ⟨b, by rw [hb]; rfl⟩

/-- One fill step does not change the length of the working list. -/
theorem fillStep_length (palette : List Color) (algorithm : FillAlgorithm)
    (st : FillState) (p : ℕ × RoomItem) :
    (fillStep palette algorithm st p).result.length = st.result.length := by
  rw [fillStep]
  rcases pickBest palette (fitFor palette algorithm st p) with _ | c
  · rfl
  · exact List.length_set st.result p.1 _

/-- Folding fill steps does not change the length of the working list. -/
theorem fillFold_length (palette : List Color) (algorithm : FillAlgorithm) :
    ∀ (l : List (ℕ × RoomItem)) (st : FillState),
      ((l.foldl (fillStep palette algorithm) st).result).length = st.result.length
  | [], st => rfl
  | p :: l, st => by
      rw [List.foldl_cons, fillFold_length palette algorithm l _,
        fillStep_length]

/-- A fill step preserves an already colored slot. -/
theorem fillStep_keeps_some (palette : List Color) (algorithm : FillAlgorithm)
    (st : FillState) (p : ℕ × RoomItem) (i : ℕ) (it2 : RoomItem)
    (h : st.result.get? i = some it2) (hs : it2.color.isSome) :
    ∃ it3, (fillStep palette algorithm st p).result.get? i = some it3 ∧
      it3.color.isSome := by
  rw [fillStep]
  rcases pickBest palette (fitFor palette algorithm st p) with _ | c
  · exact ⟨it2, h, hs⟩
  · dsimp only
    by_cases hip : p.1 = i
    · subst hip
      have hlt : p.1 < st.result.length := by
        rw [List.get?_eq_getElem?] at h
        exact (List.getElem?_eq_some_iff.mp h).1
      refine ⟨{ st.result.getD p.1 p.2 with color := some c }, ?_, ?_⟩
      · rw [List.get?_eq_getElem?, List.getElem?_set_self hlt]
      · simp
    · exact ⟨it2, by rw [List.get?_eq_getElem?, List.getElem?_set_ne hip,
        ← List.get?_eq_getElem?, h], hs⟩

/-- Folding fill steps preserves an already colored slot. -/
theorem fillFold_keeps_some (palette : List Color) (algorithm : FillAlgorithm) :
    ∀ (l : List (ℕ × RoomItem)) (st : FillState) (i : ℕ) (it2 : RoomItem),
      st.result.get? i = some it2 → it2.color.isSome →
      ∃ it3, ((l.foldl (fillStep palette algorithm) st).result).get? i = some it3 ∧
        it3.color.isSome
  | [], st, i, it2 => fun h hs => ⟨it2, h, hs⟩
  | p :: l, st, i, it2 => by
      intro h hs
      rw [List.foldl_cons]
      rcases fillStep_keeps_some palette algorithm st p i it2 h hs with ⟨it3, h3, hs3⟩
      exact fillFold_keeps_some palette algorithm l _ i it3 h3 hs3

/-- On a nonempty palette one fill step commits a palette color to the
processed slot and appends it to the running room colors. -/
theorem fillStep_commits (palette : List Color) (algorithm : FillAlgorithm)
    (st : FillState) (p : ℕ × RoomItem) (hpal : palette ≠ [])
    (hi : p.1 < st.result.length) :
    ∃ c ∈ palette,
      pickBest palette (fitFor palette algorithm st p) = some c ∧
      ∃ it3,
        (fillStep palette algorithm st p).result.get? p.1 = some it3 ∧
        it3.color = some c ∧
        (fillStep palette algorithm st p).roomColors = st.roomColors ++ [c] := by
  rcases pickBest_isSome palette (fitFor palette algorithm st p) hpal with ⟨c, hc⟩
  have hmem := pickBest_mem palette (fitFor palette algorithm st p) c hc
  rw [fillStep, hc]
  exact ⟨c, hmem, rfl, _, by rw [List.get?_eq_getElem?, List.getElem?_set_self hi], rfl, rfl⟩

/-- Pointwise update on the right list of a Forall₂ relation. -/
theorem forallTwoSetRight {α β : Type} {R : α → β → Prop} :
    ∀ {l1 : List α} {l2 : List β}, List.Forall₂ R l1 l2 → ∀ (i : ℕ) (b : β),
      (∀ a, l1.get? i = some a → R a b) → List.Forall₂ R l1 (l2.set i b)
  | _, _, List.Forall₂.nil, _, _, _ => by simp
  | _, _, List.Forall₂.cons ha h, 0, b, hb => by
      rw [List.set_cons_zero]
      exact List.Forall₂.cons (hb _ rfl) h
  | _, _, List.Forall₂.cons ha h, n + 1, b, hb => by
      rw [List.set_cons_succ]
      refine List.Forall₂.cons ha (forallTwoSetRight h n b ?_)
      intro a hai
      exact hb a (by rw [List.get?_cons_succ]; exact hai)

/-- Right projection of a Forall₂ relation at one index. -/
theorem forallTwoGetRight {α β : Type} {R : α → β → Prop} :
    ∀ {l1 : List α} {l2 : List β}, List.Forall₂ R l1 l2 → ∀ (i : ℕ) (a : α),
      l1.get? i = some a → ∃ b, l2.get? i = some b ∧ R a b
  | _, _, List.Forall₂.nil, i, a => by simp
  | _, _, List.Forall₂.cons ha h, 0, a => by
      intro hai
      rw [List.get?_cons_zero, Option.some_inj] at hai
      exact ⟨_, rfl, hai ▸ ha⟩
  | _, _, List.Forall₂.cons ha h, n + 1, a => by
      intro hai
      rw [List.get?_cons_succ] at hai
      rcases forallTwoGetRight h n a hai with ⟨b, hb, hr⟩
      exact ⟨b, by rw [List.get?_cons_succ]; exact hb, hr⟩

/-- Invariant of one fill step: every slot of the working list is the
original item, or the original unassigned item recolored with a palette
color. -/
theorem fillStep_invariant (palette : List Color) (algorithm : FillAlgorithm)
    (items : List RoomItem) (st : FillState) (p : ℕ × RoomItem)
    (hp : ∀ it, items.get? p.1 = some it → it.color = none)
    (h : List.Forall₂ (fun it it2 => it2 = it ∨
      (it.color = none ∧ ∃ c ∈ palette, it2 = { it with color := some c }))
      items st.result) :
    List.Forall₂ (fun it it2 => it2 = it ∨
      (it.color = none ∧ ∃ c ∈ palette, it2 = { it with color := some c }))
      items (fillStep palette algorithm st p).result := by
  rcases hbest : pickBest palette (fitFor palette algorithm st p) with _ | c
  · rw [fillStep, hbest]
    exact h
  · have hcmem := pickBest_mem _ _ _ hbest
    rw [fillStep, hbest]
    dsimp only
    refine forallTwoSetRight h p.1 _ ?_
    intro a hai
    have hnone := hp a hai
    rcases forallTwoGetRight h p.1 a hai with ⟨b, hb, hr⟩
    have hgetD : st.result.getD p.1 p.2 = b := by
      rw [List.getD_eq_getElem?_getD, ← List.get?_eq_getElem?, hb]
      rfl
    rw [hgetD]
    rcases hr with hr | ⟨hn2, c2, hc2, hr⟩
    · subst hr
      exact Or.inr ⟨hnone, c, hcmem, rfl⟩
    · subst hr
      exact Or.inr ⟨hnone, c, hcmem, rfl⟩

/-- Invariant of the whole fill fold. -/
theorem fillFold_invariant (palette : List Color) (algorithm : FillAlgorithm)
    (items : List RoomItem) :
    ∀ (l : List (ℕ × RoomItem)) (st : FillState),
      (∀ q ∈ l, ∀ it, items.get? q.1 = some it → it.color = none) →
      List.Forall₂ (fun it it2 => it2 = it ∨
        (it.color = none ∧ ∃ c ∈ palette, it2 = { it with color := some c }))
        items st.result →
      List.Forall₂ (fun it it2 => it2 = it ∨
        (it.color = none ∧ ∃ c ∈ palette, it2 = { it with color := some c }))
        items ((l.foldl (fillStep palette algorithm) st).result)
  | [], st => fun _ h => h
  | p :: l, st => by
      intro hl h
      rw [List.foldl_cons]
      refine fillFold_invariant palette algorithm items l _ ?_ ?_
      · intro q hq
        exact hl q (List.mem_cons_of_mem p hq)
      · exact fillStep_invariant palette algorithm items st p
          (hl p (List.mem_cons_self p l)) h

/-- Membership in the enumerated list is lookup. -/
theorem memEnumIffGet {α : Type} (l : List α) (q : ℕ × α) :
    q ∈ l.enum ↔ l.get? q.1 = some q.2 := by
  rcases q with ⟨i, x⟩
  constructor
  · intro h
    obtain ⟨hlt, hx⟩ := List.mem_enum h
    rw [List.get?_eq_getElem?, List.getElem?_eq_getElem hlt, hx]
  · intro h
    rw [List.get?_eq_getElem?] at h
    refine List.mem_iff_getElem?.mpr ⟨i, ?_⟩
    rw [List.getElem?_enum, h]
    rfl

/-- Membership in the processing order: exactly the unassigned indexed
items. -/
theorem mem_processingOrder (items : List RoomItem) (q : ℕ × RoomItem) :
    q ∈ processingOrder items ↔ items.get? q.1 = some q.2 ∧ q.2.color = none := by
  rw [processingOrder, (List.mergeSort_perm _ _).mem_iff, List.mem_filter,
    memEnumIffGet, Option.isNone_iff_eq_none]

/-- On a nonempty palette the fill fold colors every processed slot. -/
theorem fillFold_covers (palette : List Color) (algorithm : FillAlgorithm)
    (hpal : palette ≠ []) :
    ∀ (l : List (ℕ × RoomItem)) (st : FillState),
      (∀ q ∈ l, q.1 < st.result.length) →
      ∀ q ∈ l, ∃ it3,
        ((l.foldl (fillStep palette algorithm) st).result).get? q.1 = some it3 ∧
        it3.color.isSome
  | [], _ => by
      intro _ q hq
      exact absurd hq (List.not_mem_nil q)
  | p :: l, st => by
      intro hb q hq
      rw [List.foldl_cons]
      rcases List.mem_cons.mp hq with hqp | hq2
      · subst hqp
        obtain ⟨c, _, _, it3, hget, hcol, _⟩ := fillStep_commits palette algorithm st q hpal
          (hb q (List.mem_cons_self q l))
        exact fillFold_keeps_some palette algorithm l _ q.1 it3 hget (by rw [hcol]; rfl)
      · refine fillFold_covers palette algorithm hpal l _ ?_ q hq2
        intro r hr
        rw [fillStep_length]
        exact hb r (List.mem_cons_of_mem p hr)

/-- Items of the processing order are unassigned in the input list. -/
theorem processingOrder_unassigned (items : List RoomItem) :
    ∀ q ∈ processingOrder items, ∀ it, items.get? q.1 = some it → it.color = none := by
  intro q hq it hit
  obtain ⟨hget, hnone⟩ := (mem_processingOrder items q).mp hq
  rw [hget, Option.some_inj] at hit
  rw [hit] at hnone
  exact hnone

/-- C10: every item of the list returned by autoFillRoom either carries
exactly its original color (in particular items that arrived assigned and
slots left untouched) or has been given an element of the input palette;
the engine never assigns a color from outside the palette. -/
theorem autoFillRoom_palette_closure (items : List RoomItem)
    (palette : List Color) (algorithm : FillAlgorithm) :
    List.Forall₂ (fun it it2 => it2.color = it.color ∨ ∃ c ∈ palette, it2.color = some c)
      items (autoFillRoom items palette algorithm) := by
  rw [autoFillRoom]
  split
  · exact List.forall₂_same.mpr (fun x _ => Or.inl rfl)
  · have hinit : List.Forall₂ (fun it it2 => it2 = it ∨
        (it.color = none ∧ ∃ c ∈ palette, it2 = { it with color := some c }))
        items (fillInit items palette).result :=
      List.forall₂_same.mpr (fun x _ => Or.inl rfl)
    have hinv := fillFold_invariant palette algorithm items (processingOrder items)
      (fillInit items palette) (processingOrder_unassigned items) hinit
    refine hinv.imp ?_
    intro a b hr
    rcases hr with hr | ⟨_, c, hc, hr⟩
    · exact Or.inl (by rw [hr])
    · exact Or.inr ⟨c, hc, by rw [hr]⟩

/-- C3: with an empty palette autoFillRoom returns its input unchanged;
with a nonempty palette every previously unassigned item is given a color
and every already assigned item is returned untouched; in particular a
list in which every item is assigned is returned unchanged. -/
theorem autoFillRoom_fill_spec (items : List RoomItem) (palette : List Color)
    (algorithm : FillAlgorithm) :
    (palette = [] → autoFillRoom items palette algorithm = items) ∧
    ((∀ it ∈ items, it.color ≠ none) → autoFillRoom items palette algorithm = items) ∧
    (palette ≠ [] → List.Forall₂ (fun it it2 =>
        (it.color ≠ none → it2 = it) ∧ (it.color = none → ∃ c, it2.color = some c))
      items (autoFillRoom items palette algorithm)) := by
  refine ⟨?_, ?_, ?_⟩
  · intro h
    rw [autoFillRoom, if_pos (by rw [h]; rfl)]
  · intro h
    rw [autoFillRoom]
    split
    · rfl
    · have hord : processingOrder items = [] := by
        rcases hpo : processingOrder items with _ | ⟨q, l⟩
        · rfl
        · exfalso
          have hq : q ∈ processingOrder items := by
            rw [hpo]
            exact List.mem_cons_self q l
          obtain ⟨hget, hnone⟩ := (mem_processingOrder items q).mp hq
          exact h q.2 (List.get?_mem hget) hnone
      rw [hord]
      rfl
  · intro hpal
    have hne : ¬palette.isEmpty = true := by
      rw [List.isEmpty_iff]
      exact hpal
    rw [autoFillRoom, if_neg hne]
    have hinit : List.Forall₂ (fun it it2 => it2 = it ∨
        (it.color = none ∧ ∃ c ∈ palette, it2 = { it with color := some c }))
        items (fillInit items palette).result :=
      List.forall₂_same.mpr (fun x _ => Or.inl rfl)
    have hinv := fillFold_invariant palette algorithm items (processingOrder items)
      (fillInit items palette) (processingOrder_unassigned items) hinit
    have hbound : ∀ q ∈ processingOrder items, q.1 < (fillInit items palette).result.length := by
      intro q hq
      obtain ⟨hget, _⟩ := (mem_processingOrder items q).mp hq
      rw [List.get?_eq_getElem?] at hget
      exact (List.getElem?_eq_some_iff.mp hget).1
    have hcov := fillFold_covers palette algorithm hpal (processingOrder items)
      (fillInit items palette) hbound
    have hlen : items.length =
        (((processingOrder items).foldl (fillStep palette algorithm)
          (fillInit items palette)).result).length := by
      rw [fillFold_length]
      rfl
    refine List.forall₂_iff_get.mpr ⟨hlen, ?_⟩
    intro i h1 h2
    have hgi : items.get? i = some (items.get ⟨i, h1⟩) := List.get?_eq_get h1
    obtain ⟨b, hb, hr⟩ := forallTwoGetRight hinv i _ hgi
    have hb2 : b = (((processingOrder items).foldl (fillStep palette algorithm)
        (fillInit items palette)).result).get ⟨i, h2⟩ := by
      have := List.get?_eq_get h2
      rw [this, Option.some_inj] at hb
      exact hb.symm
    constructor
    · intro hne2
      rcases hr with hr | ⟨hn, _⟩
      · rw [← hb2, hr]
      · exact absurd hn hne2
    · intro hnone
      have hmemq : (i, items.get ⟨i, h1⟩) ∈ processingOrder items :=
        (mem_processingOrder items (i, items.get ⟨i, h1⟩)).mpr ⟨hgi, hnone⟩
      obtain ⟨it3, hget3, hsome3⟩ := hcov (i, items.get ⟨i, h1⟩) hmemq
      have hit3 : it3 = (((processingOrder items).foldl (fillStep palette algorithm)
          (fillInit items palette)).result).get ⟨i, h2⟩ := by
        have := List.get?_eq_get h2
        rw [this, Option.some_inj] at hget3
        exact hget3.symm
      rw [← hit3]
      exact Option.isSome_iff_exists.mp hsome3

/-- Witness for C3: an all-assigned room is returned unchanged, and in a
room with one unassigned item a nonempty palette fills it. -/
theorem autoFillRoom_fill_spec_witness :
    autoFillRoom [⟨0, "Rug", some (Color.lch 40 20 30), 6, Tendency.any⟩]
        [Color.lch 70 10 100] FillAlgorithm.surfaceArea =
      [⟨0, "Rug", some (Color.lch 40 20 30), 6, Tendency.any⟩] ∧
    autoFillRoom [⟨0, "Rug", some (Color.lch 40 20 30), 6, Tendency.any⟩] []
        FillAlgorithm.surfaceArea =
      [⟨0, "Rug", some (Color.lch 40 20 30), 6, Tendency.any⟩] ∧
    List.Forall₂ (fun it it2 =>
        (it.color ≠ none → it2 = it) ∧ (it.color = none → ∃ c, it2.color = some c))
      [⟨0, "Rug", none, 6, Tendency.any⟩]
      (autoFillRoom [⟨0, "Rug", none, 6, Tendency.any⟩] [Color.lch 70 10 100]
        FillAlgorithm.surfaceArea) := by
  refine ⟨(autoFillRoom_fill_spec _ _ _).2.1 ?_, (autoFillRoom_fill_spec _ _ _).1 rfl,
    (autoFillRoom_fill_spec _ _ _).2.2 (by simp)⟩
  intro it hit
  rw [List.mem_singleton] at hit
  rw [hit]
  simp

/-- State of the fill loop after one more processed item. -/
theorem fillStateAt_succ (items : List RoomItem) (palette : List Color)
    (algorithm : FillAlgorithm) (k : ℕ) (p : ℕ × RoomItem)
    (hk : (processingOrder items).get? k = some p) :
    fillStateAt items palette algorithm (k + 1) =
      fillStep palette algorithm (fillStateAt items palette algorithm k) p := by
  rw [fillStateAt, fillStateAt, List.take_succ]
  rw [show (processingOrder items)[k]? = some p from by
    rw [← List.get?_eq_getElem?]; exact hk]
  rw [List.foldl_append]
  rfl

/-- C4: autoFillRoom processes the unassigned items in non-increasing
order of visual weight, so a strictly heavier unassigned item is
committed before any lighter one; the returned list is the final state
of that processing pass, and at each step the winning palette color is
chosen by scoring against the room-colors list accumulated so far and is
then appended to it, so the colors committed for heavier items are seen
by the scoring of lighter items but not the other way around. -/
theorem autoFillRoom_weight_order (items : List RoomItem) (palette : List Color)
    (algorithm : FillAlgorithm) :
    List.Pairwise (fun a b : ℕ × RoomItem => b.2.weight ≤ a.2.weight)
      (processingOrder items) ∧
    (∀ k1 k2 p1 p2, k1 < k2 → (processingOrder items).get? k1 = some p1 →
      (processingOrder items).get? k2 = some p2 → p2.2.weight ≤ p1.2.weight) ∧
    (palette ≠ [] → autoFillRoom items palette algorithm =
      (fillStateAt items palette algorithm (processingOrder items).length).result) ∧
    (palette ≠ [] → ∀ k p, (processingOrder items).get? k = some p →
      ∃ c ∈ palette,
        pickBest palette
          (fitFor palette algorithm (fillStateAt items palette algorithm k) p) = some c ∧
        (fillStateAt items palette algorithm (k + 1)).roomColors =
          (fillStateAt items palette algorithm k).roomColors ++ [c] ∧
        ∃ it2, (fillStateAt items palette algorithm (k + 1)).result.get? p.1 = some it2 ∧
          it2.color = some c) := by
  have hsorted : List.Pairwise (fun a b : ℕ × RoomItem => b.2.weight ≤ a.2.weight)
      (processingOrder items) := by
    have htrans : ∀ a b c : ℕ × RoomItem,
        (fun a b : ℕ × RoomItem => decide (b.2.weight ≤ a.2.weight)) a b = true →
        (fun a b : ℕ × RoomItem => decide (b.2.weight ≤ a.2.weight)) b c = true →
        (fun a b : ℕ × RoomItem => decide (b.2.weight ≤ a.2.weight)) a c = true := by
      intro a b c hab hbc
      exact decide_eq_true (le_trans (of_decide_eq_true hbc) (of_decide_eq_true hab))
    have htotal : ∀ a b : ℕ × RoomItem,
        ((fun a b : ℕ × RoomItem => decide (b.2.weight ≤ a.2.weight)) a b ||
         (fun a b : ℕ × RoomItem => decide (b.2.weight ≤ a.2.weight)) b a) = true := by
      intro a b
      rcases le_total a.2.weight b.2.weight with h | h
      · simp [h]
      · simp [h]
    rw [processingOrder]
    exact (List.sorted_mergeSort htrans htotal
      ((items.enum).filter (fun p => p.2.color.isNone))).imp
      (fun hx => of_decide_eq_true hx)
  refine ⟨hsorted, ?_, ?_, ?_⟩
  · intro k1 k2 p1 p2 hlt h1 h2
    rw [List.get?_eq_getElem?] at h1 h2
    obtain ⟨hb1, he1⟩ := List.getElem?_eq_some_iff.mp h1
    obtain ⟨hb2, he2⟩ := List.getElem?_eq_some_iff.mp h2
    have := List.pairwise_iff_get.mp hsorted ⟨k1, hb1⟩ ⟨k2, hb2⟩
      (Fin.mk_lt_mk.mpr hlt)
    rw [List.get_eq_getElem, List.get_eq_getElem, he1, he2] at this
    exact this
  · intro hpal
    have hne : ¬palette.isEmpty = true := by
      rw [List.isEmpty_iff]
      exact hpal
    rw [autoFillRoom, if_neg hne, fillStateAt, List.take_length]
  · intro hpal k p hk
    have hstep := fillStateAt_succ items palette algorithm k p hk
    have hmem : p ∈ processingOrder items := List.get?_mem hk
    have hbound : p.1 < items.length := by
      obtain ⟨hget, _⟩ := (mem_processingOrder items p).mp hmem
      rw [List.get?_eq_getElem?] at hget
      exact (List.getElem?_eq_some_iff.mp hget).1
    have hlenk : (fillStateAt items palette algorithm k).result.length = items.length := by
      rw [fillStateAt, fillFold_length]
      rfl
    obtain ⟨c, hcmem, hpick, it3, hget3, hcol3, hroom3⟩ := fillStep_commits palette algorithm
      (fillStateAt items palette algorithm k) p hpal (by rw [hlenk]; exact hbound)
    exact ⟨c, hcmem, hpick, by rw [hstep]; exact hroom3, it3,
      by rw [hstep]; exact hget3, hcol3⟩

/-- Witness for C4 at a two-item room with one assigned and one
unassigned item: the single processing step commits a palette color and
appends it to the room colors. -/
theorem autoFillRoom_weight_order_witness :
    ∃ c ∈ [Color.lch 70 10 100],
      pickBest [Color.lch 70 10 100]
        (fitFor [Color.lch 70 10 100] FillAlgorithm.surfaceArea
          (fillStateAt [⟨0, "Vase", some (Color.lch 40 20 30), 1, Tendency.any⟩,
              ⟨1, "Floors", none, 10, Tendency.any⟩]
            [Color.lch 70 10 100] FillAlgorithm.surfaceArea 0)
          (1, ⟨1, "Floors", none, 10, Tendency.any⟩)) = some c ∧
      (fillStateAt [⟨0, "Vase", some (Color.lch 40 20 30), 1, Tendency.any⟩,
            ⟨1, "Floors", none, 10, Tendency.any⟩]
          [Color.lch 70 10 100] FillAlgorithm.surfaceArea 1).roomColors =
        (fillStateAt [⟨0, "Vase", some (Color.lch 40 20 30), 1, Tendency.any⟩,
            ⟨1, "Floors", none, 10, Tendency.any⟩]
          [Color.lch 70 10 100] FillAlgorithm.surfaceArea 0).roomColors ++ [c] ∧
      ∃ it2, (fillStateAt [⟨0, "Vase", some (Color.lch 40 20 30), 1, Tendency.any⟩,
            ⟨1, "Floors", none, 10, Tendency.any⟩]
          [Color.lch 70 10 100] FillAlgorithm.surfaceArea 1).result.get? 1 = some it2 ∧
        it2.color = some c := by
  have hpo : processingOrder [⟨0, "Vase", some (Color.lch 40 20 30), 1, Tendency.any⟩,
      ⟨1, "Floors", none, 10, Tendency.any⟩] =
      [(1, ⟨1, "Floors", none, 10, Tendency.any⟩)] := by
    rw [processingOrder]
    simp [List.enum, List.enumFrom, List.filter]
  have h := (autoFillRoom_weight_order
    [⟨0, "Vase", some (Color.lch 40 20 30), 1, Tendency.any⟩,
      ⟨1, "Floors", none, 10, Tendency.any⟩]
    [Color.lch 70 10 100] FillAlgorithm.surfaceArea).2.2.2 (by simp) 0
    (1, ⟨1, "Floors", none, 10, Tendency.any⟩) (by rw [hpo]; rfl)
  exact h

/-- The bump-map fold of the wardrobe type counts computes, at every base
name, the number of unassigned items of that base type. -/
theorem typeCountsFoldEq :
    ∀ (items : List RoomItem) (m : String → ℕ) (b : String),
      (items.foldl
        (fun m item =>
          if item.color.isSome then m
          else fun s => if s = baseName item.name then m s + 1 else m s) m) b =
      m b + items.countP (fun it => it.color.isNone && (baseName it.name == b))
  | [], m, b => by simp
  | it :: items, m, b => by
      rw [List.foldl_cons, List.countP_cons]
      rcases it.color with _ | c
      · rw [if_neg (by simp)]
        rw [typeCountsFoldEq items _ b]
        simp only [Option.isNone_none, Bool.true_and]
        by_cases hb : b = baseName it.name
        · rw [if_pos hb, show (baseName it.name == b) = true from by
            rw [beq_iff_eq]; exact hb.symm]
          simp
          omega
        · rw [if_neg hb, show (baseName it.name == b) = false from
            beq_eq_false_iff_ne.mpr (fun he => hb he.symm)]
          simp
      · rw [if_pos (by simp)]
        rw [typeCountsFoldEq items m b]
        simp

/-- The type counts of the wardrobe assigner count the unassigned items
of each base type. -/
theorem typeCountsMapEq (items : List RoomItem) (b : String) :
    typeCountsMap items b =
      items.countP (fun it => it.color.isNone && (baseName it.name == b)) := by
  rw [typeCountsMap, typeCountsFoldEq]
  simp

/-- Membership in a concatenation survives a new head on the left part. -/
theorem memAppendConsLeft {α : Type} {e x : α} {L1 L2 : List α}
    (h : e ∈ L1 ++ L2) : e ∈ (x :: L1) ++ L2 := by
  rcases List.mem_append.mp h with h2 | h2
  · exact List.mem_append.mpr (Or.inl (List.mem_cons_of_mem x h2))
  · exact List.mem_append.mpr (Or.inr h2)

/-- Membership in a concatenation survives a new head on the right part. -/
theorem memAppendConsRight {α : Type} {e x : α} {L1 L2 : List α}
    (h : e ∈ L1 ++ L2) : e ∈ L1 ++ (x :: L2) := by
  rcases List.mem_append.mp h with h2 | h2
  · exact List.mem_append.mpr (Or.inl h2)
  · exact List.mem_append.mpr (Or.inr (List.mem_cons_of_mem x h2))

/-- Every unassigned indexed item receives a lane entry whose target
lightness follows the spread formula, the instance index being the number
of unassigned same-type items occurring earlier. -/
theorem wardrobeLanesAuxMem (tc : String → ℕ) :
    ∀ (l : List (ℕ × RoomItem)) (ti : String → ℕ) (k i : ℕ) (item : RoomItem),
      l.get? k = some (i, item) → item.color = none →
      ∃ e ∈ (wardrobeLanesAux tc l ti).1 ++ (wardrobeLanesAux tc l ti).2,
        e.idx = i ∧
        e.targetL = spreadTarget
          (if tc (baseName item.name) = 0 then 1 else tc (baseName item.name))
          (ti (baseName item.name) +
            (l.take k).countP (fun q =>
              q.2.color.isNone && (baseName q.2.name == baseName item.name)))
          (((getWardrobeItem (baseName item.name)).map
            WardrobeItemType.lightnessRange).getD (20, 80))
  | [], ti, k, i, item => by simp
  | (j, jt) :: rest, ti, 0, i, item => by
      intro hk hnone
      rw [List.get?_cons_zero, Option.some_inj] at hk
      cases hk
      rw [wardrobeLanesAux]
      rw [if_neg (by rw [hnone]; simp)]
      dsimp only
      simp only [List.take_zero, List.countP_nil, Nat.add_zero]
      rcases hrole : ((getWardrobeItem (baseName jt.name)).map
          WardrobeItemType.role).getD WardrobeRole.core with _ | _ | _ <;>
        simp only [hrole]
      · exact ⟨_, List.mem_append.mpr (Or.inl (List.mem_cons_self _ _)), rfl,
          by simp [spreadTarget]⟩
      · exact ⟨_, List.mem_append.mpr (Or.inr (List.mem_cons_self _ _)), rfl,
          by simp [spreadTarget]⟩
      · exact ⟨_, List.mem_append.mpr (Or.inr (List.mem_cons_self _ _)), rfl,
          by simp [spreadTarget]⟩
  | (j, jt) :: rest, ti, k + 1, i, item => by
      intro hk hnone
      rw [List.get?_cons_succ] at hk
      rw [List.take_succ_cons, List.countP_cons]
      rw [wardrobeLanesAux]
      dsimp only
      by_cases hcol : jt.color.isSome
      · rw [if_pos hcol]
        have hpred : (jt.color.isNone && (baseName jt.name == baseName item.name)) = false := by
          rcases hjc : jt.color with _ | c
          · rw [hjc] at hcol
            simp at hcol
          · simp
        rw [hpred]
        simp only [if_neg Bool.false_ne_true, Nat.add_zero]
        exact wardrobeLanesAuxMem tc rest ti k i item hk hnone
      · rw [if_neg hcol]
        have hjnone : jt.color.isNone = true := by
          rcases hjc : jt.color with _ | c
          · rfl
          · rw [hjc] at hcol
            simp at hcol
        have hpred : (jt.color.isNone && (baseName jt.name == baseName item.name)) =
            (baseName jt.name == baseName item.name) := by
          rw [hjnone]
          simp
        rw [hpred]
        obtain ⟨e, hmem, hidx, htarget⟩ := wardrobeLanesAuxMem tc rest
          (fun b => if b = baseName jt.name then ti (baseName jt.name) + 1 else ti b)
          k i item hk hnone
        have harith :
            (fun b => if b = baseName jt.name then ti (baseName jt.name) + 1 else ti b)
              (baseName item.name) +
              (rest.take k).countP (fun q =>
                q.2.color.isNone && (baseName q.2.name == baseName item.name)) =
            ti (baseName item.name) +
              ((rest.take k).countP (fun q =>
                  q.2.color.isNone && (baseName q.2.name == baseName item.name)) +
                (if (baseName jt.name == baseName item.name) = true then 1 else 0)) := by
          dsimp only
          by_cases hbb : baseName item.name = baseName jt.name
          · rw [if_pos hbb, show (baseName jt.name == baseName item.name) = true from by
              rw [beq_iff_eq]; exact hbb.symm, hbb]
            simp
            omega
          · rw [if_neg hbb, show (baseName jt.name == baseName item.name) = false from
              beq_eq_false_iff_ne.mpr (fun he => hbb he.symm)]
            simp
        rcases hrole : ((getWardrobeItem (baseName jt.name)).map
            WardrobeItemType.role).getD WardrobeRole.core with _ | _ | _ <;>
          simp only [hrole]
        · exact ⟨e, memAppendConsLeft hmem, hidx, by rw [htarget, harith]⟩
        · exact ⟨e, memAppendConsRight hmem, hidx, by rw [htarget, harith]⟩
        · exact ⟨e, memAppendConsRight hmem, hidx, by rw [htarget, harith]⟩

/-- C9: in the lane construction of autoFillWardrobe every unassigned
item receives a lane entry whose target lightness is the spread formula
over the type's catalog lightness range: with n unassigned instances of
the same garment type, the k-th instance (k counted over the earlier
unassigned same-type items) receives minL + (k/(n-1)) (maxL-minL) when
n is larger than 1, and the single instance receives the midpoint. -/
theorem autoFillWardrobe_spread (items : List RoomItem) (i : ℕ) (item : RoomItem)
    (hget : items.get? i = some item) (hnone : item.color = none) :
    ∃ e ∈ (wardrobeLanes items).1 ++ (wardrobeLanes items).2,
      e.idx = i ∧
      e.targetL = spreadTarget (unassignedTypeCount items (baseName item.name))
        (unassignedTypeCount (items.take i) (baseName item.name))
        (((getWardrobeItem (baseName item.name)).map
          WardrobeItemType.lightnessRange).getD (20, 80)) := by
  have henum : items.enum.get? i = some (i, item) := by
    rw [List.get?_eq_getElem?, List.getElem?_enum]
    rw [List.get?_eq_getElem?] at hget
    rw [hget]
    rfl
  obtain ⟨e, hmem, hidx, htarget⟩ := wardrobeLanesAuxMem (typeCountsMap items)
    items.enum (fun _ => 0) i i item henum hnone
  rw [wardrobeLanes]
  refine ⟨e, hmem, hidx, ?_⟩
  rw [htarget]
  have hbase : typeCountsMap items (baseName item.name) =
      unassignedTypeCount items (baseName item.name) := typeCountsMapEq items _
  have hpos : unassignedTypeCount items (baseName item.name) ≠ 0 := by
    rw [unassignedTypeCount]
    have hc : 0 < items.countP
        (fun it => it.color.isNone && (baseName it.name == baseName item.name)) := by
      refine List.countP_pos_iff.mpr ⟨item, List.get?_mem hget, ?_⟩
      rw [hnone]
      simp
    omega
  rw [hbase, if_neg hpos]
  have hk : ((fun _ : String => 0) (baseName item.name)) +
      (items.enum.take i).countP (fun q =>
        q.2.color.isNone && (baseName q.2.name == baseName item.name)) =
      unassignedTypeCount (items.take i) (baseName item.name) := by
    have hcomp : (fun q : ℕ × RoomItem =>
        q.2.color.isNone && (baseName q.2.name == baseName item.name)) =
        ((fun it : RoomItem => it.color.isNone &&
          (baseName it.name == baseName item.name)) ∘ Prod.snd) := rfl
    rw [hcomp, ← List.countP_map, List.map_take, List.enum_map_snd, unassignedTypeCount]
    simp
  rw [hk]

/-- Witness for C9 at a capsule of three unassigned t-shirts, looking at
the middle instance. -/
theorem autoFillWardrobe_spread_witness :
    ∃ e ∈ (wardrobeLanes [⟨0, "T-Shirt 1", none, 6, Tendency.any⟩,
        ⟨1, "T-Shirt 2", none, 6, Tendency.any⟩,
        ⟨2, "T-Shirt 3", none, 6, Tendency.any⟩]).1 ++
      (wardrobeLanes [⟨0, "T-Shirt 1", none, 6, Tendency.any⟩,
        ⟨1, "T-Shirt 2", none, 6, Tendency.any⟩,
        ⟨2, "T-Shirt 3", none, 6, Tendency.any⟩]).2,
      e.idx = 1 ∧
      e.targetL = spreadTarget
        (unassignedTypeCount [⟨0, "T-Shirt 1", none, 6, Tendency.any⟩,
          ⟨1, "T-Shirt 2", none, 6, Tendency.any⟩,
          ⟨2, "T-Shirt 3", none, 6, Tendency.any⟩]
          (baseName "T-Shirt 2"))
        (unassignedTypeCount ([⟨0, "T-Shirt 1", none, 6, Tendency.any⟩,
          ⟨1, "T-Shirt 2", none, 6, Tendency.any⟩,
          ⟨2, "T-Shirt 3", none, 6, Tendency.any⟩].take 1)
          (baseName "T-Shirt 2"))
        (((getWardrobeItem (baseName "T-Shirt 2")).map
          WardrobeItemType.lightnessRange).getD (20, 80)) :=
  autoFillWardrobe_spread
    [⟨0, "T-Shirt 1", none, 6, Tendency.any⟩,
      ⟨1, "T-Shirt 2", none, 6, Tendency.any⟩,
      ⟨2, "T-Shirt 3", none, 6, Tendency.any⟩]
    1 ⟨1, "T-Shirt 2", none, 6, Tendency.any⟩ (by rfl) rfl

/-- Witness for C6 at a concrete three-color room. -/
theorem itemScoreDelta_spec_witness :
    itemScoreDelta (Color.lch 50 30 100)
        [Color.lch 30 10 20, Color.lch 50 30 100, Color.lch 70 5 200]
        FillAlgorithm.surfaceArea [] (some [3, 5, 2]) =
      if (removeWithWeight (Color.lch 50 30 100)
            [Color.lch 30 10 20, Color.lch 50 30 100, Color.lch 70 5 200] [3, 5, 2]).1.length < 2
      then 0
      else
        computeHarmonyScore [Color.lch 30 10 20, Color.lch 50 30 100, Color.lch 70 5 200]
            FillAlgorithm.surfaceArea [] (some [3, 5, 2]) -
          computeHarmonyScore
            (removeWithWeight (Color.lch 50 30 100)
              [Color.lch 30 10 20, Color.lch 50 30 100, Color.lch 70 5 200] [3, 5, 2]).1
            FillAlgorithm.surfaceArea []
            (some (removeWithWeight (Color.lch 50 30 100)
              [Color.lch 30 10 20, Color.lch 50 30 100, Color.lch 70 5 200] [3, 5, 2]).2) := by
  refine itemScoreDelta_spec (Color.lch 50 30 100)
    [Color.lch 30 10 20, Color.lch 50 30 100, Color.lch 70 5 200]
    FillAlgorithm.surfaceArea [] [3, 5, 2] ?_ (by rfl)
  have hne1 : Color.lch 30 10 20 ≠ Color.lch 50 30 100 := by
    intro h
    rw [Color.lch.injEq] at h
    norm_num at h
  have hne3 : Color.lch 70 5 200 ≠ Color.lch 50 30 100 := by
    intro h
    rw [Color.lch.injEq] at h
    norm_num at h
  simp [List.count_cons, hne1, hne3]

/-- Witness for C5 at concrete usage counts and sizes. -/
theorem diversityBonus_spec_witness :
    diversityBonus 3 4 5 ≤ diversityBonus 2 4 5 ∧
    diversityBonus 1 4 5 < diversityBonus 0 4 5 ∧
    diversityBonus 2 4 5 < 0 ∧
    diversityBonus 1 5 3 = diversityBonus 1 5 5 - 10 :=
  ⟨diversityBonus_spec.1 2 3 4 5 (by decide),
   diversityBonus_spec.2.1 4 5,
   diversityBonus_spec.2.2.1 2 4 5 (by decide),
   diversityBonus_spec.2.2.2 1 5 3 (by decide) (by decide)⟩

end

end ColorGen
